import Mathlib

/-!
Verification of the timeline synchronization writer (SyncWriter) of the
hydrogen-web repository.  The JavaScript source of `SyncWriter.js` is embedded
shallowly: the transaction-scoped stores (timeline fragments, timeline events,
room state) become explicit record state, collaborator objects (member writer,
relation writer, fragment-id comparer) become abstract function parameters or
recorded operation lists, and JavaScript exceptions (the explicit `throw` in
`_replaceLiveFragment` and the TypeError raised by property access on
`undefined`) become an `Except` error monad.  Missing or absent JSON sections
are modelled with `Option`.
-/

/-- A sync-response event, with the fields the writer inspects:
`event_id`, `type`, `sender` and the optional `state_key`; the rest of the
event body is abstracted as `content`. -/
structure Event where
  event_id : String
  type : String
  sender : String
  state_key : Option String
  content : String
deriving DecidableEq

/-- Modelled from the spec: EventKey is an ordered pair
(fragmentId, eventIndex); the `EventKey` module itself is not among the
provided sources.  Total order: compare fragmentId first, then eventIndex. -/
structure EventKey where
  fragmentId : Int
  eventIndex : Int
deriving DecidableEq

/-- Modelled from the spec: the defined starting value that `nextFragmentKey`
resets the event index to, and that seeds the first fragment. -/
def middleStorageKey : Int := 2147483647

/-- Modelled from the spec: the default live key constant seeding the first
event of the first fragment. -/
def EventKey.defaultLiveKey : EventKey := ⟨0, middleStorageKey⟩

/-- Modelled from the spec: `nextKey()` increments the event index. -/
def EventKey.nextKey (k : EventKey) : EventKey := ⟨k.fragmentId, k.eventIndex + 1⟩

/-- Modelled from the spec: `nextFragmentKey()` moves to a new fragment id and
resets the event index to the defined starting value. -/
def EventKey.nextFragmentKey (k : EventKey) : EventKey :=
  ⟨k.fragmentId + 1, middleStorageKey⟩

/-- The EventKey total order: compare fragmentId first, then eventIndex. -/
def EventKey.lt (a b : EventKey) : Prop :=
  a.fragmentId < b.fragmentId ∨ (a.fragmentId = b.fragmentId ∧ a.eventIndex < b.eventIndex)

instance (a b : EventKey) : Decidable (EventKey.lt a b) := by
  unfold EventKey.lt
  exact inferInstance

/-- A timeline fragment row, as built by `_createLiveFragment` and
`_replaceLiveFragment`. -/
structure Fragment where
  roomId : String
  id : Int
  previousId : Option Int
  nextId : Option Int
  previousToken : Option String
  nextToken : Option String
deriving DecidableEq

/-- Modelled from the spec: a stored timeline event entry carries the raw
event body, its assigned key, the room id, and the optional
displayName/avatarUrl snapshot (`createEventEntry` of `common.js` is not among
the provided sources). -/
structure StorageEntry where
  fragmentId : Int
  eventIndex : Int
  roomId : String
  event : Event
  displayName : Option String
  avatarUrl : Option String
deriving DecidableEq

/-- An entry returned from `_writeTimeline`: either a fragment boundary marker
(`FragmentBoundaryEntry.start` / `.end`) or a wrapped event entry
(`EventEntry`). -/
inductive TimelineEntry where
  | fragmentBoundary (isStart : Bool) (fragment : Fragment)
  | event (entry : StorageEntry)
deriving DecidableEq

/-- The timeline section of a room sync response; `events` is `none` when the
field is missing or not an array. -/
structure Timeline where
  events : Option (List Event)
  limited : Bool
  prev_batch : Option String
deriving DecidableEq

/-- The state section of a room sync response. -/
structure StateSection where
  events : Option (List Event)
deriving DecidableEq

/-- A room sync response: both sections are optional. -/
structure RoomResponse where
  timeline : Option Timeline
  state : Option StateSection
deriving DecidableEq

/-- An operation recorded against the fragment-id comparer:
`add(fragment)` or `append(newFragmentId, oldFragmentId)`. -/
inductive ComparerOp where
  | add (fragment : Fragment)
  | append (newId : Int) (oldId : Int)
deriving DecidableEq

/-- The transaction-scoped stores the writer touches: the fragment store, the
timeline event store (in insertion order) and the room state store. -/
structure Storage where
  fragments : List Fragment
  timelineEvents : List StorageEntry
  roomState : List (String × Event)
deriving DecidableEq

/-- The full mutable state threaded through one `writeSync` call: the storage
transaction, the comparer operation log, and the opaque internal states of the
member writer and the relation writer. -/
structure SyncState (μ ρ : Type) where
  storage : Storage
  comparer : List ComparerOp
  memberState : μ
  relState : ρ
deriving DecidableEq

/-- A member profile as returned by the member-writer lookup. -/
structure Profile where
  displayName : Option String
  avatarUrl : Option String
deriving DecidableEq

/-- The collaborator interfaces consumed by the writer, kept abstract: the
member writer (with internal state `μ` and member-change values `χ`) and the
relation writer (with internal state `ρ`). -/
structure Collaborators (μ ρ χ : Type) where
  lookupMember : μ → String → Event → List Event → Option Profile
  writeTimelineMemberEvent : μ → Event → μ × Option χ
  writeStateMemberEvent : μ → Event → Option Bool → μ × Option χ
  userIdOf : χ → String
  writeRelation : ρ → StorageEntry → ρ × Option (List StorageEntry)

/-- Errors a write can raise: the explicit throw of `_replaceLiveFragment`,
and the TypeError raised by accessing a property of an `undefined` timeline
(or calling `findIndex` on an `undefined` events field). -/
inductive WriterError where
  | oldFragmentMissing (oldFragmentId : Int)
  | typeError
deriving DecidableEq

/-- The result object of `writeSync`. -/
structure SyncWriterResult (χ : Type) where
  entries : List TimelineEntry
  updatedEntries : List StorageEntry
  newLiveKey : Option EventKey
  memberChanges : List (String × χ)
deriving DecidableEq

/-- The SyncWriter instance: bound to one room, holding the in-memory
`_lastLiveKey`. -/
structure SyncWriter where
  roomId : String
  lastLiveKey : Option EventKey
deriving DecidableEq

/-- The member event type constant (`m.room.member`), imported by the source
from `RoomMember.js`. -/
def MEMBER_EVENT_TYPE : String := "m.room.member"

/-- Modelled from the spec: the fragment store query `liveFragment(roomId)`
returns the fragment new events are appended to, the one with
`nextId == null`; the store implementation is out of scope for the spec. -/
def liveFragment (frags : List Fragment) (roomId : String) : Option Fragment :=
  frags.find? (fun f => decide (f.roomId = roomId ∧ f.nextId = none))

/-- Modelled from the spec: the fragment store query `get(roomId, fragmentId)`. -/
def fragGet (frags : List Fragment) (roomId : String) (fragmentId : Int) : Option Fragment :=
  frags.find? (fun f => decide (f.roomId = roomId ∧ f.id = fragmentId))

/-- Modelled from the spec: the fragment store `update(fragment)` replaces the
row with the same key (roomId, id). -/
def fragUpdate (frags : List Fragment) (f : Fragment) : List Fragment :=
  frags.map (fun g => if g.roomId = f.roomId ∧ g.id = f.id then f else g)

/-- Modelled from the spec: the timeline event store query
`lastEvents(roomId, fragmentId, 1)` returns the stored entry of that fragment
with the highest key, if any. -/
def lastEvent (storage : Storage) (roomId : String) (fragmentId : Int) : Option StorageEntry :=
  (storage.timelineEvents.filter
      (fun se => decide (se.roomId = roomId ∧ se.fragmentId = fragmentId))).foldl
    (fun acc se =>
      match acc with
      | none => some se
      | some a => if a.eventIndex ≤ se.eventIndex then some se else some a)
    none

/-- Modelled from the spec: the room state store `set(roomId, event)` upserts
keyed by event type plus state key. -/
def roomStateSet (rs : List (String × Event)) (roomId : String) (e : Event) :
    List (String × Event) :=
  rs.filter (fun p =>
    !(decide (p.1 = roomId ∧ p.2.type = e.type ∧ p.2.state_key = e.state_key))) ++ [(roomId, e)]

/-- Map-style upsert used for the member changes map (keyed by user id, last
write wins). -/
def mapSet {α : Type} (m : List (String × α)) (k : String) (v : α) : List (String × α) :=
  m.filter (fun p => p.1 ≠ k) ++ [(k, v)]

/-- The JavaScript truthiness normalization `if (!previousToken) previousToken = null`
applied in `_createLiveFragment`. -/
def normalizeToken : Option String → Option String
  | none => none
  | some s => if s = "" then none else some s

/-- The recursion of `deduplicateEvents`: keep an event only when its id has
not been seen yet. -/
def dedupAux : List Event → List String → List Event
  | [], _ => []
  | e :: rest, seen =>
    if seen.contains e.event_id then dedupAux rest seen
    else e :: dedupAux rest (e.event_id :: seen)

/-- `deduplicateEvents`: filter the batch keeping the first occurrence of
every event id (works around servers sending duplicate events). -/
def deduplicateEvents (events : List Event) : List Event := dedupAux events []

/-- Modelled from the spec: `createEventEntry(key, roomId, event)` builds the
bare storage entry (no profile snapshot yet). -/
def createEventEntry (key : EventKey) (roomId : String) (event : Event) : StorageEntry :=
  { fragmentId := key.fragmentId, eventIndex := key.eventIndex, roomId := roomId,
    event := event, displayName := none, avatarUrl := none }

/-- Append a stored entry to the timeline event store
(`txn.timelineEvents.insert`). -/
def insertTimelineEvent {μ ρ : Type} (st : SyncState μ ρ) (se : StorageEntry) :
    SyncState μ ρ :=
  {st with storage := {st.storage with timelineEvents := st.storage.timelineEvents ++ [se]}}

/-- Upsert a state event into the room state store (`txn.roomState.set`). -/
def roomStateInsert (s : Storage) (roomId : String) (e : Event) : Storage :=
  {s with roomState := roomStateSet s.roomState roomId e}

/-- `_createLiveFragment`: return the existing live fragment if the store has
one, otherwise add (and register with the comparer) the first fragment of the
room, with the default fragment id. -/
def createLiveFragment {μ ρ : Type} (roomId : String) (previousToken : Option String)
    (st : SyncState μ ρ) : SyncState μ ρ × Fragment :=
  match liveFragment st.storage.fragments roomId with
  | none =>
    let tok := normalizeToken previousToken
    let fragment : Fragment :=
      { roomId := roomId, id := EventKey.defaultLiveKey.fragmentId, previousId := none,
        nextId := none, previousToken := tok, nextToken := none }
    ({st with
        storage := {st.storage with fragments := st.storage.fragments ++ [fragment]},
        comparer := st.comparer ++ [ComparerOp.add fragment]}, fragment)
  | some f => (st, f)

/-- `_replaceLiveFragment`: throws when the old live fragment is absent from
the store; otherwise seals the old fragment (`nextId` set), adds the linked new
fragment and registers the adjacency with the comparer. -/
def replaceLiveFragment {μ ρ : Type} (roomId : String) (oldFragmentId newFragmentId : Int)
    (previousToken : Option String) (st : SyncState μ ρ) :
    Except WriterError (SyncState μ ρ × Fragment × Fragment) :=
  match fragGet st.storage.fragments roomId oldFragmentId with
  | none => .error (.oldFragmentMissing oldFragmentId)
  | some oldFragment0 =>
    let oldFragment := {oldFragment0 with nextId := some newFragmentId}
    let newFragment : Fragment :=
      { roomId := roomId, id := newFragmentId, previousId := some oldFragmentId,
        nextId := none, previousToken := previousToken, nextToken := none }
    .ok ({st with
        storage := {st.storage with
          fragments := fragUpdate st.storage.fragments oldFragment ++ [newFragment]},
        comparer := st.comparer ++ [ComparerOp.append newFragmentId oldFragmentId]},
      oldFragment, newFragment)

/-- `_ensureLiveFragment`: create the first live fragment when there is no
current key, replace the live fragment on a limited timeline, otherwise leave
everything unchanged.  Boundary entries are appended to `entries`. -/
def ensureLiveFragment {μ ρ : Type} (roomId : String) (currentKey : Option EventKey)
    (entries : List TimelineEntry) (timeline : Timeline) (st : SyncState μ ρ) :
    Except WriterError (SyncState μ ρ × List TimelineEntry × EventKey) :=
  match currentKey with
  | none =>
    let res := createLiveFragment roomId timeline.prev_batch st
    let key := EventKey.mk res.2.id EventKey.defaultLiveKey.eventIndex
    .ok (res.1, entries ++ [TimelineEntry.fragmentBoundary true res.2], key)
  | some key =>
    if timeline.limited then
      let oldFragmentId := key.fragmentId
      let newKey := key.nextFragmentKey
      match replaceLiveFragment roomId oldFragmentId newKey.fragmentId timeline.prev_batch st with
      | .error e => .error e
      | .ok res =>
        .ok (res.1, entries ++ [TimelineEntry.fragmentBoundary false res.2.1,
                                TimelineEntry.fragmentBoundary true res.2.2], newKey)
    else .ok (st, entries, key)

/-- One iteration of the state-section loop of `_writeStateEvents`: member
events are delegated to the member writer (possibly yielding a member change),
all other events overwrite room state. -/
def writeStateEvent {μ ρ χ : Type} (ctx : Collaborators μ ρ χ) (roomId : String)
    (isLimited : Option Bool) (acc : SyncState μ ρ × List (String × χ)) (e : Event) :
    SyncState μ ρ × List (String × χ) :=
  if e.type = MEMBER_EVENT_TYPE then
    let mres := ctx.writeStateMemberEvent acc.1.memberState e isLimited
    let st := {acc.1 with memberState := mres.1}
    match mres.2 with
    | some c => (st, mapSet acc.2 (ctx.userIdOf c) c)
    | none => (st, acc.2)
  else
    ({acc.1 with storage := roomStateInsert acc.1.storage roomId e}, acc.2)

/-- `_writeStateEvents`: iterate over the state section events when the
section is present and is an array; otherwise do nothing. -/
def writeStateEvents {μ ρ χ : Type} (ctx : Collaborators μ ρ χ) (roomId : String)
    (roomResponse : RoomResponse) (memberChanges : List (String × χ))
    (isLimited : Option Bool) (st : SyncState μ ρ) :
    SyncState μ ρ × List (String × χ) :=
  match roomResponse.state with
  | some s =>
    match s.events with
    | some evs => evs.foldl (writeStateEvent ctx roomId isLimited) (st, memberChanges)
    | none => (st, memberChanges)
  | none => (st, memberChanges)

/-- The accumulator threaded through the timeline event loop of
`_writeTimeline`. -/
structure LoopState (μ ρ χ : Type) where
  state : SyncState μ ρ
  key : EventKey
  entries : List TimelineEntry
  updatedEntries : List StorageEntry
  memberChanges : List (String × χ)

/-- One iteration of the timeline event loop of `_writeTimeline`: advance the
key, build the storage entry, attach the profile snapshot looked up in the
member writer BEFORE any state update for this event, insert it, run the
relation writer, and only then (for state events) update room state or the
member writer. -/
def loopStep {μ ρ χ : Type} (ctx : Collaborators μ ρ χ) (roomId : String)
    (allEvents : List Event) (e : Event) (ls : LoopState μ ρ χ) : LoopState μ ρ χ :=
  let key := ls.key.nextKey
  let storageEntry0 := createEventEntry key roomId e
  let storageEntry :=
    match ctx.lookupMember ls.state.memberState e.sender e allEvents with
    | some m => {storageEntry0 with displayName := m.displayName, avatarUrl := m.avatarUrl}
    | none => storageEntry0
  let st1 := insertTimelineEvent ls.state storageEntry
  let entries := ls.entries ++ [TimelineEntry.event storageEntry]
  let rres := ctx.writeRelation st1.relState storageEntry
  let st2 := {st1 with relState := rres.1}
  let updatedEntries :=
    match rres.2 with
    | some us => ls.updatedEntries ++ us
    | none => ls.updatedEntries
  let stepResult :=
    if e.state_key.isSome then
      if e.type = MEMBER_EVENT_TYPE then
        let mres := ctx.writeTimelineMemberEvent st2.memberState e
        let st3 := {st2 with memberState := mres.1}
        match mres.2 with
        | some c => (st3, mapSet ls.memberChanges (ctx.userIdOf c) c)
        | none => (st3, ls.memberChanges)
      else
        ({st2 with storage := roomStateInsert st2.storage roomId e}, ls.memberChanges)
    else (st2, ls.memberChanges)
  ⟨stepResult.1, key, entries, updatedEntries, stepResult.2⟩

/-- The timeline event loop of `_writeTimeline`, iterating `loopStep` over the
deduplicated events. -/
def writeTimelineLoop {μ ρ χ : Type} (ctx : Collaborators μ ρ χ) (roomId : String)
    (allEvents : List Event) : List Event → LoopState μ ρ χ → LoopState μ ρ χ
  | [], ls => ls
  | e :: rest, ls =>
    writeTimelineLoop ctx roomId allEvents rest (loopStep ctx roomId allEvents e ls)

/-- The output of `_writeTimeline`. -/
structure WTOut (μ ρ χ : Type) where
  state : SyncState μ ρ
  currentKey : Option EventKey
  entries : List TimelineEntry
  updatedEntries : List StorageEntry
  memberChanges : List (String × χ)

/-- `_writeTimeline`: when the timeline section is present with a non-empty
events array, ensure a live fragment and run the loop over the deduplicated
events; otherwise there is nothing to write. -/
def writeTimeline {μ ρ χ : Type} (ctx : Collaborators μ ρ χ) (roomId : String)
    (timeline : Option Timeline) (currentKey : Option EventKey)
    (memberChanges : List (String × χ)) (st : SyncState μ ρ) :
    Except WriterError (WTOut μ ρ χ) :=
  match timeline with
  | some t =>
    match t.events with
    | some evs =>
      if evs.isEmpty then .ok ⟨st, currentKey, [], [], memberChanges⟩
      else
        match ensureLiveFragment roomId currentKey [] t st with
        | .error e => .error e
        | .ok res =>
          let events := deduplicateEvents evs
          let out := writeTimelineLoop ctx roomId events events
            ⟨res.1, res.2.2, res.2.1, [], memberChanges⟩
          .ok ⟨out.state, some out.key, out.entries, out.updatedEntries, out.memberChanges⟩
    | none => .ok ⟨st, currentKey, [], [], memberChanges⟩
  | none => .ok ⟨st, currentKey, [], [], memberChanges⟩

/-- `_handleRejoinOverlap`: look for the last stored event of the
previously-known live fragment inside the incoming timeline; on overlap drop
the replayed prefix and force `limited := false`, otherwise force
`limited := true` when the server did not already report a limited timeline.
Property accesses on a missing timeline (or a missing events array during the
overlap search) raise a TypeError, exactly as in the JavaScript source. -/
def handleRejoinOverlap (roomId : String) (lastLiveKey : Option EventKey)
    (storage : Storage) (timeline : Option Timeline) : Except WriterError Timeline :=
  let overlap : Except WriterError (Option Timeline) :=
    match lastLiveKey with
    | some key =>
      match lastEvent storage roomId key.fragmentId with
      | some le =>
        match timeline with
        | none => .error .typeError
        | some t =>
          match t.events with
          | none => .error .typeError
          | some events =>
            match events.findIdx? (fun e => decide (e.event_id = le.event.event_id)) with
            | some index =>
              .ok (some {t with limited := false, events := some (events.drop (index + 1))})
            | none => .ok none
      | none => .ok none
    | none => .ok none
  match overlap with
  | .error e => .error e
  | .ok (some t) => .ok t
  | .ok none =>
    match timeline with
    | none => .error .typeError
    | some t => .ok (if t.limited then t else {t with limited := true})

/-- `writeSync`: resolve rejoin overlap when needed, write the state section,
write the timeline, and return the new entries, updated entries, advanced key
and member changes.  The writer itself (holding `_lastLiveKey`) is threaded
through and returned so that frame properties can be stated; the method never
assigns the field. -/
def SyncWriter.writeSync {μ ρ χ : Type} (w : SyncWriter) (ctx : Collaborators μ ρ χ)
    (roomResponse : RoomResponse) (isRejoin : Bool) (st : SyncState μ ρ) :
    Except WriterError (SyncWriter × SyncState μ ρ × SyncWriterResult χ) :=
  match (if isRejoin then
      (handleRejoinOverlap w.roomId w.lastLiveKey st.storage roomResponse.timeline).map some
    else .ok roomResponse.timeline) with
  | .error e => .error e
  | .ok timeline =>
    let sres := writeStateEvents ctx w.roomId roomResponse [] (timeline.map Timeline.limited) st
    match writeTimeline ctx w.roomId timeline w.lastLiveKey sres.2 sres.1 with
    | .error e => .error e
    | .ok out => .ok (w, out.state, ⟨out.entries, out.updatedEntries, out.currentKey, out.memberChanges⟩)

/-- `afterSync(newLiveKey)`: the only mutation of `_lastLiveKey` after
construction and `load`. -/
def SyncWriter.afterSync (w : SyncWriter) (newLiveKey : Option EventKey) : SyncWriter :=
  {w with lastLiveKey := newLiveKey}

/-- `load`: seed `_lastLiveKey` from the stored live fragment and its last
event, never writing to the store. -/
def SyncWriter.load (w : SyncWriter) (storage : Storage) : SyncWriter :=
  match liveFragment storage.fragments w.roomId with
  | some f =>
    let eventIndex :=
      match lastEvent storage w.roomId f.id with
      | some le => le.eventIndex
      | none => EventKey.defaultLiveKey.eventIndex
    {w with lastLiveKey := some ⟨f.id, eventIndex⟩}
  | none => w

/-- The `lastMessageKey` getter. -/
def SyncWriter.lastMessageKey (w : SyncWriter) : Option EventKey := w.lastLiveKey

/-- The evolution of the member-writer state caused by one timeline event: the
timeline member-event path runs only for member events carrying a state key. -/
def memberStep {μ ρ χ : Type} (ctx : Collaborators μ ρ χ) (s : μ) (e : Event) : μ :=
  if e.state_key.isSome then
    if e.type = MEMBER_EVENT_TYPE then (ctx.writeTimelineMemberEvent s e).1 else s
  else s

/-- The member-writer state after the timeline member-event paths of a list of
events have run. -/
def memberFold {μ ρ χ : Type} (ctx : Collaborators μ ρ χ) (s : μ) (evs : List Event) : μ :=
  evs.foldl (memberStep ctx) s

/-- The storage entry built for one event inside the loop: the bare entry plus
the profile snapshot looked up in the member-writer state `s`. -/
def mkStorageEntry {μ ρ χ : Type} (ctx : Collaborators μ ρ χ) (roomId : String)
    (allEvents : List Event) (key : EventKey) (s : μ) (e : Event) : StorageEntry :=
  let storageEntry0 := createEventEntry key roomId e
  match ctx.lookupMember s e.sender e allEvents with
  | some m => {storageEntry0 with displayName := m.displayName, avatarUrl := m.avatarUrl}
  | none => storageEntry0

/-- The sequence of storage entries produced by the timeline loop, as a pure
recursion on the event list. -/
def loopEntriesList {μ ρ χ : Type} (ctx : Collaborators μ ρ χ) (roomId : String)
    (allEvents : List Event) : List Event → EventKey → μ → List StorageEntry
  | [], _, _ => []
  | e :: rest, key, s =>
    mkStorageEntry ctx roomId allEvents key.nextKey s e ::
      loopEntriesList ctx roomId allEvents rest key.nextKey (memberStep ctx s e)

/-- Project the event entries out of a mixed entry list, dropping fragment
boundaries. -/
def eventEntriesOf (l : List TimelineEntry) : List StorageEntry :=
  l.filterMap (fun x =>
    match x with
    | TimelineEntry.event se => some se
    | TimelineEntry.fragmentBoundary _ _ => none)

/-- The event keys assigned to a list of storage entries. -/
def keysOf (l : List StorageEntry) : List EventKey :=
  l.map (fun se => EventKey.mk se.fragmentId se.eventIndex)

/-- The number of live fragments (rows with `nextId == null`) a room has in
the fragment store. -/
def liveCount (frags : List Fragment) (roomId : String) : Nat :=
  (frags.filter (fun f => decide (f.roomId = roomId ∧ f.nextId = none))).length

/-- A trivial instantiation of the collaborator interfaces, used to evaluate
the writer on concrete inputs. -/
def trivialCollaborators : Collaborators Unit Unit Unit :=
  { lookupMember := fun _ _ _ _ => none,
    writeTimelineMemberEvent := fun s _ => (s, none),
    writeStateMemberEvent := fun s _ _ => (s, none),
    userIdOf := fun _ => "",
    writeRelation := fun r _ => (r, none) }

theorem loopStep_key {μ ρ χ : Type} (ctx : Collaborators μ ρ χ) (roomId : String)
    (allEvents : List Event) (e : Event) (ls : LoopState μ ρ χ) :
    (loopStep ctx roomId allEvents e ls).key = ls.key.nextKey := rfl

theorem loopStep_entries {μ ρ χ : Type} (ctx : Collaborators μ ρ χ) (roomId : String)
    (allEvents : List Event) (e : Event) (ls : LoopState μ ρ χ) :
    (loopStep ctx roomId allEvents e ls).entries =
      ls.entries ++ [TimelineEntry.event
        (mkStorageEntry ctx roomId allEvents ls.key.nextKey ls.state.memberState e)] := rfl

theorem loopStep_memberState {μ ρ χ : Type} (ctx : Collaborators μ ρ χ) (roomId : String)
    (allEvents : List Event) (e : Event) (ls : LoopState μ ρ χ) :
    (loopStep ctx roomId allEvents e ls).state.memberState =
      memberStep ctx ls.state.memberState e := by
  unfold loopStep memberStep
  by_cases h1 : e.state_key.isSome
  · by_cases h2 : e.type = MEMBER_EVENT_TYPE
    · simp only [h1, h2, if_true]
      cases hm : (ctx.writeTimelineMemberEvent (insertTimelineEvent ls.state _).memberState e).2 <;>
        simp [insertTimelineEvent, hm]
    · simp [h1, h2, insertTimelineEvent, roomStateInsert]
  · simp [h1, insertTimelineEvent]

theorem loopStep_fragments {μ ρ χ : Type} (ctx : Collaborators μ ρ χ) (roomId : String)
    (allEvents : List Event) (e : Event) (ls : LoopState μ ρ χ) :
    (loopStep ctx roomId allEvents e ls).state.storage.fragments =
      ls.state.storage.fragments := by
  unfold loopStep
  by_cases h1 : e.state_key.isSome
  · by_cases h2 : e.type = MEMBER_EVENT_TYPE
    · simp only [h1, h2, if_true]
      cases hm : (ctx.writeTimelineMemberEvent (insertTimelineEvent ls.state _).memberState e).2 <;>
        simp [insertTimelineEvent, hm]
    · simp [h1, h2, insertTimelineEvent, roomStateInsert]
  · simp [h1, insertTimelineEvent]

theorem loopStep_comparer {μ ρ χ : Type} (ctx : Collaborators μ ρ χ) (roomId : String)
    (allEvents : List Event) (e : Event) (ls : LoopState μ ρ χ) :
    (loopStep ctx roomId allEvents e ls).state.comparer = ls.state.comparer := by
  unfold loopStep
  by_cases h1 : e.state_key.isSome
  · by_cases h2 : e.type = MEMBER_EVENT_TYPE
    · simp only [h1, h2, if_true]
      cases hm : (ctx.writeTimelineMemberEvent (insertTimelineEvent ls.state _).memberState e).2 <;>
        simp [insertTimelineEvent, hm]
    · simp [h1, h2, insertTimelineEvent, roomStateInsert]
  · simp [h1, insertTimelineEvent]

theorem writeTimelineLoop_entries {μ ρ χ : Type} (ctx : Collaborators μ ρ χ)
    (roomId : String) (allEvents : List Event) :
    ∀ (evs : List Event) (ls : LoopState μ ρ χ),
      (writeTimelineLoop ctx roomId allEvents evs ls).entries =
        ls.entries ++ (loopEntriesList ctx roomId allEvents evs ls.key
          ls.state.memberState).map TimelineEntry.event
  | [], ls => by simp [writeTimelineLoop, loopEntriesList]
  | e :: rest, ls => by
    rw [writeTimelineLoop, writeTimelineLoop_entries ctx roomId allEvents rest,
      loopStep_entries, loopStep_key, loopStep_memberState]
    simp [loopEntriesList]

theorem writeTimelineLoop_fragments {μ ρ χ : Type} (ctx : Collaborators μ ρ χ)
    (roomId : String) (allEvents : List Event) :
    ∀ (evs : List Event) (ls : LoopState μ ρ χ),
      (writeTimelineLoop ctx roomId allEvents evs ls).state.storage.fragments =
        ls.state.storage.fragments
  | [], ls => rfl
  | e :: rest, ls => by
    rw [writeTimelineLoop, writeTimelineLoop_fragments ctx roomId allEvents rest,
      loopStep_fragments]

theorem writeTimelineLoop_comparer {μ ρ χ : Type} (ctx : Collaborators μ ρ χ)
    (roomId : String) (allEvents : List Event) :
    ∀ (evs : List Event) (ls : LoopState μ ρ χ),
      (writeTimelineLoop ctx roomId allEvents evs ls).state.comparer = ls.state.comparer
  | [], ls => rfl
  | e :: rest, ls => by
    rw [writeTimelineLoop, writeTimelineLoop_comparer ctx roomId allEvents rest,
      loopStep_comparer]

theorem mkStorageEntry_event {μ ρ χ : Type} (ctx : Collaborators μ ρ χ) (roomId : String)
    (allEvents : List Event) (key : EventKey) (s : μ) (e : Event) :
    (mkStorageEntry ctx roomId allEvents key s e).event = e := by
  unfold mkStorageEntry createEventEntry
  cases ctx.lookupMember s e.sender e allEvents <;> rfl

theorem mkStorageEntry_fragmentId {μ ρ χ : Type} (ctx : Collaborators μ ρ χ) (roomId : String)
    (allEvents : List Event) (key : EventKey) (s : μ) (e : Event) :
    (mkStorageEntry ctx roomId allEvents key s e).fragmentId = key.fragmentId := by
  unfold mkStorageEntry createEventEntry
  cases ctx.lookupMember s e.sender e allEvents <;> rfl

theorem mkStorageEntry_eventIndex {μ ρ χ : Type} (ctx : Collaborators μ ρ χ) (roomId : String)
    (allEvents : List Event) (key : EventKey) (s : μ) (e : Event) :
    (mkStorageEntry ctx roomId allEvents key s e).eventIndex = key.eventIndex := by
  unfold mkStorageEntry createEventEntry
  cases ctx.lookupMember s e.sender e allEvents <;> rfl

theorem loopEntriesList_getElem? {μ ρ χ : Type} (ctx : Collaborators μ ρ χ)
    (roomId : String) (allEvents : List Event) :
    ∀ (evs : List Event) (key : EventKey) (s : μ) (i : Nat),
      (loopEntriesList ctx roomId allEvents evs key s)[i]? =
        (evs[i]?).map (fun e =>
          mkStorageEntry ctx roomId allEvents
            ⟨key.fragmentId, key.eventIndex + ((i : Int) + 1)⟩
            (memberFold ctx s (evs.take i)) e)
  | [], key, s, i => by simp [loopEntriesList]
  | e :: rest, key, s, 0 => by
    simp [loopEntriesList, memberFold, EventKey.nextKey]
  | e :: rest, key, s, i + 1 => by
    rw [loopEntriesList, List.getElem?_cons_succ,
      loopEntriesList_getElem? ctx roomId allEvents rest key.nextKey (memberStep ctx s e) i,
      List.getElem?_cons_succ]
    cases hr : rest[i]? with
    | none => rfl
    | some ev =>
      simp only [Option.map_some']
      have hkeq : (⟨key.nextKey.fragmentId, key.nextKey.eventIndex + ((i : Int) + 1)⟩ : EventKey) =
          ⟨key.fragmentId, key.eventIndex + (((i + 1 : Nat) : Int) + 1)⟩ := by
        unfold EventKey.nextKey
        congr 1
        push_cast
        omega
      have hseq : memberFold ctx (memberStep ctx s e) (rest.take i) =
          memberFold ctx s ((e :: rest).take (i + 1)) := by
        simp [memberFold]
      rw [hkeq, hseq]

theorem loopEntriesList_length {μ ρ χ : Type} (ctx : Collaborators μ ρ χ)
    (roomId : String) (allEvents : List Event) :
    ∀ (evs : List Event) (key : EventKey) (s : μ),
      (loopEntriesList ctx roomId allEvents evs key s).length = evs.length
  | [], _, _ => rfl
  | e :: rest, key, s => by
    rw [loopEntriesList]
    simp [loopEntriesList_length ctx roomId allEvents rest]

theorem loopEntriesList_map_event {μ ρ χ : Type} (ctx : Collaborators μ ρ χ)
    (roomId : String) (allEvents : List Event) :
    ∀ (evs : List Event) (key : EventKey) (s : μ),
      (loopEntriesList ctx roomId allEvents evs key s).map StorageEntry.event = evs
  | [], _, _ => rfl
  | e :: rest, key, s => by
    rw [loopEntriesList]
    simp [mkStorageEntry_event, loopEntriesList_map_event ctx roomId allEvents rest]

theorem loopEntriesList_fragmentId {μ ρ χ : Type} (ctx : Collaborators μ ρ χ)
    (roomId : String) (allEvents : List Event) :
    ∀ (evs : List Event) (key : EventKey) (s : μ),
      ∀ se ∈ loopEntriesList ctx roomId allEvents evs key s, se.fragmentId = key.fragmentId
  | [], _, _ => by simp [loopEntriesList]
  | e :: rest, key, s => by
    rw [loopEntriesList]
    intro se hse
    rcases List.mem_cons.mp hse with h | h
    · rw [h, mkStorageEntry_fragmentId]
      rfl
    · have := loopEntriesList_fragmentId ctx roomId allEvents rest key.nextKey
        (memberStep ctx s e) se h
      rw [this]
      rfl

theorem loopEntriesList_pairwise {μ ρ χ : Type} (ctx : Collaborators μ ρ χ)
    (roomId : String) (allEvents : List Event) (evs : List Event) (key : EventKey) (s : μ) :
    List.Pairwise EventKey.lt (keysOf (loopEntriesList ctx roomId allEvents evs key s)) := by
  rw [List.pairwise_iff_getElem]
  intro i j hi hj hij
  have hlen : (keysOf (loopEntriesList ctx roomId allEvents evs key s)).length = evs.length := by
    simp [keysOf, loopEntriesList_length]
  have hkey : ∀ (n : Nat), n < evs.length →
      (keysOf (loopEntriesList ctx roomId allEvents evs key s))[n]? =
        some ⟨key.fragmentId, key.eventIndex + ((n : Int) + 1)⟩ := by
    intro n hn
    have hev : evs[n]? = some evs[n] := List.getElem?_eq_getElem hn
    simp [keysOf, List.getElem?_map, loopEntriesList_getElem?, hev,
      mkStorageEntry_fragmentId, mkStorageEntry_eventIndex]
  have hi2 : i < evs.length := by rw [hlen] at hi; exact hi
  have hj2 : j < evs.length := by rw [hlen] at hj; exact hj
  have hgi := hkey i hi2
  have hgj := hkey j hj2
  rw [List.getElem?_eq_getElem hi] at hgi
  rw [List.getElem?_eq_getElem hj] at hgj
  have hgi2 := Option.some.inj hgi
  have hgj2 := Option.some.inj hgj
  rw [hgi2, hgj2]
  right
  constructor
  · rfl
  · simp only
    omega

theorem eventEntriesOf_append (a b : List TimelineEntry) :
    eventEntriesOf (a ++ b) = eventEntriesOf a ++ eventEntriesOf b := by
  simp [eventEntriesOf]

theorem eventEntriesOf_map_event (l : List StorageEntry) :
    eventEntriesOf (l.map TimelineEntry.event) = l := by
  induction l with
  | nil => rfl
  | cons se rest ih => simp [eventEntriesOf] at ih ⊢; exact ih

theorem eventEntriesOf_boundary (isStart : Bool) (f : Fragment) :
    eventEntriesOf [TimelineEntry.fragmentBoundary isStart f] = [] := rfl

theorem contains_eq_true_iff (seen : List String) (a : String) :
    seen.contains a = true ↔ a ∈ seen := by simp

theorem dedupAux_sublist : ∀ (evs : List Event) (seen : List String),
    List.Sublist (dedupAux evs seen) evs
  | [], _ => List.Sublist.refl []
  | e :: rest, seen => by
    rw [dedupAux]
    by_cases h : seen.contains e.event_id
    · rw [if_pos h]
      exact List.Sublist.cons e (dedupAux_sublist rest seen)
    · rw [if_neg h]
      exact List.Sublist.cons₂ e (dedupAux_sublist rest (e.event_id :: seen))

theorem dedupAux_not_seen : ∀ (evs : List Event) (seen : List String),
    ∀ e ∈ dedupAux evs seen, e.event_id ∉ seen
  | [], _ => by simp [dedupAux]
  | x :: rest, seen => by
    rw [dedupAux]
    by_cases h : seen.contains x.event_id
    · rw [if_pos h]
      exact dedupAux_not_seen rest seen
    · rw [if_neg h]
      intro e he
      rcases List.mem_cons.mp he with he | he
      · rw [he, ← contains_eq_true_iff]
        exact h
      · have h2 := dedupAux_not_seen rest (x.event_id :: seen) e he
        intro hc
        exact h2 (List.mem_cons_of_mem _ hc)

theorem dedupAux_nodup_ids : ∀ (evs : List Event) (seen : List String),
    ((dedupAux evs seen).map Event.event_id).Nodup
  | [], _ => by simp [dedupAux]
  | x :: rest, seen => by
    rw [dedupAux]
    by_cases h : seen.contains x.event_id
    · rw [if_pos h]
      exact dedupAux_nodup_ids rest seen
    · rw [if_neg h]
      simp only [List.map_cons, List.nodup_cons]
      refine ⟨?_, dedupAux_nodup_ids rest (x.event_id :: seen)⟩
      intro hmem
      rcases List.mem_map.mp hmem with ⟨e, he, heid⟩
      have h2 := dedupAux_not_seen rest (x.event_id :: seen) e he
      exact h2 (by rw [heid]; exact List.mem_cons_self _ _)

theorem dedupAux_first_occurrence : ∀ (evs : List Event) (seen : List String),
    ∀ e ∈ dedupAux evs seen,
      evs.find? (fun x => decide (x.event_id = e.event_id)) = some e
  | [], _ => by simp [dedupAux]
  | x :: rest, seen => by
    rw [dedupAux]
    by_cases h : seen.contains x.event_id
    · rw [if_pos h]
      intro e he
      have hne : ¬ (x.event_id = e.event_id) := by
        intro hc
        have h2 := dedupAux_not_seen rest seen e he
        rw [← hc] at h2
        exact h2 ((contains_eq_true_iff seen x.event_id).mp h)
      rw [List.find?_cons_of_neg _ (by simpa using hne)]
      exact dedupAux_first_occurrence rest seen e he
    · rw [if_neg h]
      intro e he
      rcases List.mem_cons.mp he with he | he
      · rw [he]
        rw [List.find?_cons_of_pos _ (by simp)]
      · have hnotin := dedupAux_not_seen rest (x.event_id :: seen) e he
        have hne : ¬ (x.event_id = e.event_id) := by
          intro hc
          exact hnotin (by rw [← hc]; exact List.mem_cons_self _ _)
        rw [List.find?_cons_of_neg _ (by simpa using hne)]
        exact dedupAux_first_occurrence rest (x.event_id :: seen) e he

theorem dedupAux_covers : ∀ (evs : List Event) (seen : List String),
    ∀ e ∈ evs, e.event_id ∈ seen ∨
      ∃ e2 ∈ dedupAux evs seen, e2.event_id = e.event_id
  | [], _ => by simp
  | x :: rest, seen => by
    rw [dedupAux]
    by_cases h : seen.contains x.event_id
    · rw [if_pos h]
      intro e he
      rcases List.mem_cons.mp he with he | he
      · rw [he]
        exact Or.inl ((contains_eq_true_iff seen x.event_id).mp h)
      · exact dedupAux_covers rest seen e he
    · rw [if_neg h]
      intro e he
      rcases List.mem_cons.mp he with he | he
      · exact Or.inr ⟨x, List.mem_cons_self x _, by rw [he]⟩
      · rcases dedupAux_covers rest (x.event_id :: seen) e he with hc | ⟨e2, he2, heq⟩
        · rcases List.mem_cons.mp hc with hc | hc
          · exact Or.inr ⟨x, List.mem_cons_self x _, hc.symm⟩
          · exact Or.inl hc
        · exact Or.inr ⟨e2, List.mem_cons_of_mem x he2, heq⟩

theorem deduplicateEvents_ne_nil (e : Event) (rest : List Event) :
    deduplicateEvents (e :: rest) ≠ [] := by
  unfold deduplicateEvents dedupAux
  simp

theorem writeStateEvent_fragments {μ ρ χ : Type} (ctx : Collaborators μ ρ χ)
    (roomId : String) (isLimited : Option Bool) (acc : SyncState μ ρ × List (String × χ))
    (e : Event) :
    (writeStateEvent ctx roomId isLimited acc e).1.storage.fragments =
      acc.1.storage.fragments := by
  unfold writeStateEvent
  by_cases h : e.type = MEMBER_EVENT_TYPE
  · rw [if_pos h]
    cases hm : (ctx.writeStateMemberEvent acc.1.memberState e isLimited).2 <;> simp [hm]
  · rw [if_neg h]
    rfl

theorem writeStateEvent_comparer {μ ρ χ : Type} (ctx : Collaborators μ ρ χ)
    (roomId : String) (isLimited : Option Bool) (acc : SyncState μ ρ × List (String × χ))
    (e : Event) :
    (writeStateEvent ctx roomId isLimited acc e).1.comparer = acc.1.comparer := by
  unfold writeStateEvent
  by_cases h : e.type = MEMBER_EVENT_TYPE
  · rw [if_pos h]
    cases hm : (ctx.writeStateMemberEvent acc.1.memberState e isLimited).2 <;> simp [hm]
  · rw [if_neg h]

theorem writeStateEvent_timelineEvents {μ ρ χ : Type} (ctx : Collaborators μ ρ χ)
    (roomId : String) (isLimited : Option Bool) (acc : SyncState μ ρ × List (String × χ))
    (e : Event) :
    (writeStateEvent ctx roomId isLimited acc e).1.storage.timelineEvents =
      acc.1.storage.timelineEvents := by
  unfold writeStateEvent
  by_cases h : e.type = MEMBER_EVENT_TYPE
  · rw [if_pos h]
    cases hm : (ctx.writeStateMemberEvent acc.1.memberState e isLimited).2 <;> simp [hm]
  · rw [if_neg h]
    rfl

theorem foldl_writeStateEvent_fragments {μ ρ χ : Type} (ctx : Collaborators μ ρ χ)
    (roomId : String) (isLimited : Option Bool) :
    ∀ (evs : List Event) (acc : SyncState μ ρ × List (String × χ)),
      (evs.foldl (writeStateEvent ctx roomId isLimited) acc).1.storage.fragments =
        acc.1.storage.fragments
  | [], acc => rfl
  | e :: rest, acc => by
    rw [List.foldl_cons, foldl_writeStateEvent_fragments ctx roomId isLimited rest,
      writeStateEvent_fragments]

theorem foldl_writeStateEvent_comparer {μ ρ χ : Type} (ctx : Collaborators μ ρ χ)
    (roomId : String) (isLimited : Option Bool) :
    ∀ (evs : List Event) (acc : SyncState μ ρ × List (String × χ)),
      (evs.foldl (writeStateEvent ctx roomId isLimited) acc).1.comparer = acc.1.comparer
  | [], acc => rfl
  | e :: rest, acc => by
    rw [List.foldl_cons, foldl_writeStateEvent_comparer ctx roomId isLimited rest,
      writeStateEvent_comparer]

theorem writeStateEvents_fragments {μ ρ χ : Type} (ctx : Collaborators μ ρ χ)
    (roomId : String) (roomResponse : RoomResponse) (memberChanges : List (String × χ))
    (isLimited : Option Bool) (st : SyncState μ ρ) :
    (writeStateEvents ctx roomId roomResponse memberChanges isLimited st).1.storage.fragments =
      st.storage.fragments := by
  unfold writeStateEvents
  split
  · split
    · exact foldl_writeStateEvent_fragments ctx roomId isLimited _ (st, memberChanges)
    · rfl
  · rfl

theorem writeStateEvents_comparer {μ ρ χ : Type} (ctx : Collaborators μ ρ χ)
    (roomId : String) (roomResponse : RoomResponse) (memberChanges : List (String × χ))
    (isLimited : Option Bool) (st : SyncState μ ρ) :
    (writeStateEvents ctx roomId roomResponse memberChanges isLimited st).1.comparer =
      st.comparer := by
  unfold writeStateEvents
  split
  · split
    · exact foldl_writeStateEvent_comparer ctx roomId isLimited _ (st, memberChanges)
    · rfl
  · rfl

theorem fragGet_mem_props (frags : List Fragment) (roomId : String) (fragmentId : Int)
    (f : Fragment) (h : fragGet frags roomId fragmentId = some f) :
    f ∈ frags ∧ f.roomId = roomId ∧ f.id = fragmentId := by
  refine ⟨List.mem_of_find?_eq_some h, ?_⟩
  have hp := List.find?_some h
  simpa using hp

theorem liveFragment_mem_props (frags : List Fragment) (roomId : String)
    (f : Fragment) (h : liveFragment frags roomId = some f) :
    f ∈ frags ∧ f.roomId = roomId ∧ f.nextId = none := by
  refine ⟨List.mem_of_find?_eq_some h, ?_⟩
  have hp := List.find?_some h
  simpa using hp

theorem fragGet_fragUpdate_self (frags : List Fragment) (roomId : String) (fragmentId : Int)
    (oldF f : Fragment) (h : fragGet frags roomId fragmentId = some oldF)
    (hroom : f.roomId = oldF.roomId) (hid : f.id = oldF.id) :
    fragGet (fragUpdate frags f) roomId fragmentId = some f := by
  obtain ⟨hroom2, hid2⟩ := (fragGet_mem_props frags roomId fragmentId oldF h).2
  unfold fragGet at h ⊢
  unfold fragUpdate
  induction frags with
  | nil => simp at h
  | cons g rest ih =>
    by_cases hg : g.roomId = roomId ∧ g.id = fragmentId
    · have hcond : g.roomId = f.roomId ∧ g.id = f.id := by
        rw [hroom, hid, hroom2, hid2]
        exact hg
      simp only [List.map_cons, if_pos hcond]
      rw [List.find?_cons_of_pos _ (by simp [hroom, hid, hroom2, hid2])]
    · have hcond : ¬ (g.roomId = f.roomId ∧ g.id = f.id) := by
        rw [hroom, hid, hroom2, hid2]
        exact hg
      simp only [List.map_cons, if_neg hcond]
      rw [List.find?_cons_of_neg _ (by simpa using hg)]
      rw [List.find?_cons_of_neg _ (by simpa using hg)] at h
      exact ih h

theorem find?_append_none {α : Type} (p : α → Bool) (l1 l2 : List α)
    (h : l1.find? p = none) : (l1 ++ l2).find? p = l2.find? p := by
  rw [List.find?_append, h]
  rfl

theorem liveFragment_none_liveCount (frags : List Fragment) (roomId : String)
    (h : liveFragment frags roomId = none) : liveCount frags roomId = 0 := by
  unfold liveFragment at h
  unfold liveCount
  rw [List.find?_eq_none] at h
  rw [List.length_eq_zero]
  rw [List.filter_eq_nil_iff]
  exact h

/-- The fragment row built by `_createLiveFragment` for a room with no live
fragment yet. -/
def firstFragment (roomId : String) (previousToken : Option String) : Fragment :=
  ⟨roomId, EventKey.defaultLiveKey.fragmentId, none, none, normalizeToken previousToken, none⟩

/-- The fragment row built by `_replaceLiveFragment` for the new live fragment
following key `k`. -/
def nextFragment (roomId : String) (k : EventKey) (previousToken : Option String) : Fragment :=
  ⟨roomId, k.nextFragmentKey.fragmentId, some k.fragmentId, none, previousToken, none⟩

theorem ensureLiveFragment_first {μ ρ : Type} (roomId : String)
    (entries : List TimelineEntry) (t : Timeline) (st : SyncState μ ρ)
    (hlive : liveFragment st.storage.fragments roomId = none) :
    ensureLiveFragment roomId none entries t st =
      .ok ({st with
          storage := {st.storage with
            fragments := st.storage.fragments ++ [firstFragment roomId t.prev_batch]},
          comparer := st.comparer ++ [ComparerOp.add (firstFragment roomId t.prev_batch)]},
        entries ++ [TimelineEntry.fragmentBoundary true (firstFragment roomId t.prev_batch)],
        ⟨EventKey.defaultLiveKey.fragmentId, EventKey.defaultLiveKey.eventIndex⟩) := by
  simp only [ensureLiveFragment, createLiveFragment, hlive, firstFragment]

theorem ensureLiveFragment_existingLive {μ ρ : Type} (roomId : String)
    (entries : List TimelineEntry) (t : Timeline) (st : SyncState μ ρ) (f : Fragment)
    (hlive : liveFragment st.storage.fragments roomId = some f) :
    ensureLiveFragment roomId none entries t st =
      .ok (st, entries ++ [TimelineEntry.fragmentBoundary true f],
        ⟨f.id, EventKey.defaultLiveKey.eventIndex⟩) := by
  simp only [ensureLiveFragment, createLiveFragment, hlive]

theorem ensureLiveFragment_notLimited {μ ρ : Type} (roomId : String) (k : EventKey)
    (entries : List TimelineEntry) (t : Timeline) (st : SyncState μ ρ)
    (hlim : t.limited = false) :
    ensureLiveFragment roomId (some k) entries t st = .ok (st, entries, k) := by
  simp only [ensureLiveFragment, hlim]
  rfl

theorem ensureLiveFragment_limitedMissing {μ ρ : Type} (roomId : String) (k : EventKey)
    (entries : List TimelineEntry) (t : Timeline) (st : SyncState μ ρ)
    (hlim : t.limited = true)
    (hfrag : fragGet st.storage.fragments roomId k.fragmentId = none) :
    ensureLiveFragment roomId (some k) entries t st =
      .error (.oldFragmentMissing k.fragmentId) := by
  simp only [ensureLiveFragment, replaceLiveFragment, hlim, hfrag, if_true]

theorem ensureLiveFragment_limited {μ ρ : Type} (roomId : String) (k : EventKey)
    (entries : List TimelineEntry) (t : Timeline) (st : SyncState μ ρ) (oldF : Fragment)
    (hlim : t.limited = true)
    (hfrag : fragGet st.storage.fragments roomId k.fragmentId = some oldF) :
    ensureLiveFragment roomId (some k) entries t st =
      .ok ({st with
          storage := {st.storage with
            fragments :=
              fragUpdate st.storage.fragments {oldF with nextId := some k.nextFragmentKey.fragmentId}
                ++ [nextFragment roomId k t.prev_batch]},
          comparer := st.comparer ++ [ComparerOp.append k.nextFragmentKey.fragmentId k.fragmentId]},
        entries ++ [TimelineEntry.fragmentBoundary false
                      {oldF with nextId := some k.nextFragmentKey.fragmentId},
                    TimelineEntry.fragmentBoundary true (nextFragment roomId k t.prev_batch)],
        k.nextFragmentKey) := by
  simp only [ensureLiveFragment, replaceLiveFragment, hlim, hfrag, if_true, nextFragment]

theorem writeTimeline_noTimeline {μ ρ χ : Type} (ctx : Collaborators μ ρ χ) (roomId : String)
    (currentKey : Option EventKey) (memberChanges : List (String × χ)) (st : SyncState μ ρ) :
    writeTimeline ctx roomId none currentKey memberChanges st =
      .ok ⟨st, currentKey, [], [], memberChanges⟩ := rfl

theorem writeTimeline_noEvents {μ ρ χ : Type} (ctx : Collaborators μ ρ χ) (roomId : String)
    (t : Timeline) (currentKey : Option EventKey) (memberChanges : List (String × χ))
    (st : SyncState μ ρ) (hevs : t.events = none) :
    writeTimeline ctx roomId (some t) currentKey memberChanges st =
      .ok ⟨st, currentKey, [], [], memberChanges⟩ := by
  simp only [writeTimeline, hevs]

theorem writeTimeline_emptyEvents {μ ρ χ : Type} (ctx : Collaborators μ ρ χ) (roomId : String)
    (t : Timeline) (currentKey : Option EventKey) (memberChanges : List (String × χ))
    (st : SyncState μ ρ) (hevs : t.events = some []) :
    writeTimeline ctx roomId (some t) currentKey memberChanges st =
      .ok ⟨st, currentKey, [], [], memberChanges⟩ := by
  simp only [writeTimeline, hevs, List.isEmpty_nil, if_true]

theorem writeTimeline_run {μ ρ χ : Type} (ctx : Collaborators μ ρ χ) (roomId : String)
    (t : Timeline) (evs : List Event) (currentKey : Option EventKey)
    (memberChanges : List (String × χ)) (st : SyncState μ ρ)
    (st2 : SyncState μ ρ) (bl : List TimelineEntry) (k0 : EventKey)
    (hevs : t.events = some evs) (hne : evs ≠ [])
    (hens : ensureLiveFragment roomId currentKey [] t st = .ok (st2, bl, k0)) :
    writeTimeline ctx roomId (some t) currentKey memberChanges st =
      .ok (let out := writeTimelineLoop ctx roomId (deduplicateEvents evs)
            (deduplicateEvents evs) ⟨st2, k0, bl, [], memberChanges⟩
           ⟨out.state, some out.key, out.entries, out.updatedEntries, out.memberChanges⟩) := by
  have hie : evs.isEmpty = false := by
    cases evs with
    | nil => exact absurd rfl hne
    | cons a l => rfl
  simp only [writeTimeline, hevs, hie, hens, Bool.false_eq_true, if_false]

theorem writeTimeline_error {μ ρ χ : Type} (ctx : Collaborators μ ρ χ) (roomId : String)
    (t : Timeline) (evs : List Event) (currentKey : Option EventKey)
    (memberChanges : List (String × χ)) (st : SyncState μ ρ) (err : WriterError)
    (hevs : t.events = some evs) (hne : evs ≠ [])
    (hens : ensureLiveFragment roomId currentKey [] t st = .error err) :
    writeTimeline ctx roomId (some t) currentKey memberChanges st = .error err := by
  have hie : evs.isEmpty = false := by
    cases evs with
    | nil => exact absurd rfl hne
    | cons a l => rfl
  simp only [writeTimeline, hevs, hie, hens, Bool.false_eq_true, if_false]

theorem forceLimited_eq (t : Timeline) :
    (if t.limited then t else {t with limited := true}) = {t with limited := true} := by
  by_cases h : t.limited
  · rw [if_pos h]
    cases t
    simp_all
  · rw [if_neg h]

theorem handleRejoinOverlap_found (roomId : String) (k : EventKey) (storage : Storage)
    (le : StorageEntry) (t : Timeline) (evs : List Event) (i : Nat)
    (hk : lastEvent storage roomId k.fragmentId = some le)
    (hevs : t.events = some evs)
    (hidx : evs.findIdx? (fun e => decide (e.event_id = le.event.event_id)) = some i) :
    handleRejoinOverlap roomId (some k) storage (some t) =
      .ok {t with limited := false, events := some (evs.drop (i + 1))} := by
  simp only [handleRejoinOverlap, hk, hevs, hidx]

theorem handleRejoinOverlap_notFound (roomId : String) (k : EventKey) (storage : Storage)
    (le : StorageEntry) (t : Timeline) (evs : List Event)
    (hk : lastEvent storage roomId k.fragmentId = some le)
    (hevs : t.events = some evs)
    (hidx : evs.findIdx? (fun e => decide (e.event_id = le.event.event_id)) = none) :
    handleRejoinOverlap roomId (some k) storage (some t) =
      .ok {t with limited := true} := by
  simp only [handleRejoinOverlap, hk, hevs, hidx]
  by_cases ht : t.limited
  · rw [if_pos ht]
    cases t
    simp_all
  · rw [if_neg ht]

theorem handleRejoinOverlap_noKey (roomId : String) (storage : Storage) (t : Timeline) :
    handleRejoinOverlap roomId none storage (some t) = .ok {t with limited := true} := by
  simp only [handleRejoinOverlap]
  rw [forceLimited_eq]

theorem handleRejoinOverlap_noLastEvent (roomId : String) (k : EventKey) (storage : Storage)
    (t : Timeline) (hk : lastEvent storage roomId k.fragmentId = none) :
    handleRejoinOverlap roomId (some k) storage (some t) = .ok {t with limited := true} := by
  simp only [handleRejoinOverlap, hk]
  rw [forceLimited_eq]

theorem handleRejoinOverlap_missingTimeline (roomId : String)
    (lastLiveKey : Option EventKey) (storage : Storage) :
    handleRejoinOverlap roomId lastLiveKey storage none = .error .typeError := by
  cases lastLiveKey with
  | none => simp [handleRejoinOverlap]
  | some k =>
    cases hk : lastEvent storage roomId k.fragmentId with
    | none => simp [handleRejoinOverlap, hk]
    | some le => simp [handleRejoinOverlap, hk]

theorem handleRejoinOverlap_missingEvents (roomId : String) (k : EventKey) (storage : Storage)
    (le : StorageEntry) (t : Timeline)
    (hk : lastEvent storage roomId k.fragmentId = some le)
    (hevs : t.events = none) :
    handleRejoinOverlap roomId (some k) storage (some t) = .error .typeError := by
  simp only [handleRejoinOverlap, hk, hevs]

theorem writeSync_ok {μ ρ χ : Type} (w : SyncWriter) (ctx : Collaborators μ ρ χ)
    (resp : RoomResponse) (isRejoin : Bool) (st : SyncState μ ρ)
    (timeline : Option Timeline) (out : WTOut μ ρ χ)
    (htl : (if isRejoin then
        (handleRejoinOverlap w.roomId w.lastLiveKey st.storage resp.timeline).map some
      else .ok resp.timeline) = .ok timeline)
    (hwt : writeTimeline ctx w.roomId timeline w.lastLiveKey
        (writeStateEvents ctx w.roomId resp [] (timeline.map Timeline.limited) st).2
        (writeStateEvents ctx w.roomId resp [] (timeline.map Timeline.limited) st).1 = .ok out) :
    w.writeSync ctx resp isRejoin st =
      .ok (w, out.state, ⟨out.entries, out.updatedEntries, out.currentKey, out.memberChanges⟩) := by
  unfold SyncWriter.writeSync
  rw [htl]
  simp only [hwt]

theorem writeSync_rejoinError {μ ρ χ : Type} (w : SyncWriter) (ctx : Collaborators μ ρ χ)
    (resp : RoomResponse) (st : SyncState μ ρ) (err : WriterError)
    (htl : handleRejoinOverlap w.roomId w.lastLiveKey st.storage resp.timeline = .error err) :
    w.writeSync ctx resp true st = .error err := by
  unfold SyncWriter.writeSync
  rw [if_pos rfl, htl]
  rfl

theorem writeSync_timelineError {μ ρ χ : Type} (w : SyncWriter) (ctx : Collaborators μ ρ χ)
    (resp : RoomResponse) (isRejoin : Bool) (st : SyncState μ ρ)
    (timeline : Option Timeline) (err : WriterError)
    (htl : (if isRejoin then
        (handleRejoinOverlap w.roomId w.lastLiveKey st.storage resp.timeline).map some
      else .ok resp.timeline) = .ok timeline)
    (hwt : writeTimeline ctx w.roomId timeline w.lastLiveKey
        (writeStateEvents ctx w.roomId resp [] (timeline.map Timeline.limited) st).2
        (writeStateEvents ctx w.roomId resp [] (timeline.map Timeline.limited) st).1 =
        .error err) :
    w.writeSync ctx resp isRejoin st = .error err := by
  unfold SyncWriter.writeSync
  rw [htl]
  simp only [hwt]

theorem ensureLiveFragment_ok_shape {μ ρ : Type} (roomId : String)
    (key : Option EventKey) (t : Timeline) (st stA : SyncState μ ρ)
    (bl : List TimelineEntry) (k0 : EventKey)
    (hens : ensureLiveFragment roomId key [] t st = .ok (stA, bl, k0)) :
    eventEntriesOf bl = [] ∧ stA.memberState = st.memberState ∧ stA.relState = st.relState := by
  cases key with
  | none =>
    cases hlive : liveFragment st.storage.fragments roomId with
    | none =>
      rw [ensureLiveFragment_first roomId [] t st hlive] at hens
      have h := Except.ok.inj hens
      have hst : stA = {st with
          storage := {st.storage with
            fragments := st.storage.fragments ++ [firstFragment roomId t.prev_batch]},
          comparer := st.comparer ++ [ComparerOp.add (firstFragment roomId t.prev_batch)]} :=
        (congrArg Prod.fst h).symm
      have hbl : bl = [] ++ [TimelineEntry.fragmentBoundary true (firstFragment roomId t.prev_batch)] :=
        (congrArg (fun x => x.2.1) h).symm
      rw [hst, hbl]
      exact ⟨rfl, rfl, rfl⟩
    | some f =>
      rw [ensureLiveFragment_existingLive roomId [] t st f hlive] at hens
      have h := Except.ok.inj hens
      have hst : stA = st := (congrArg Prod.fst h).symm
      have hbl : bl = [] ++ [TimelineEntry.fragmentBoundary true f] :=
        (congrArg (fun x => x.2.1) h).symm
      rw [hst, hbl]
      exact ⟨rfl, rfl, rfl⟩
  | some k =>
    by_cases hlim : t.limited
    · cases hfrag : fragGet st.storage.fragments roomId k.fragmentId with
      | none =>
        rw [ensureLiveFragment_limitedMissing roomId k [] t st hlim hfrag] at hens
        exact absurd hens (by simp)
      | some oldF =>
        rw [ensureLiveFragment_limited roomId k [] t st oldF hlim hfrag] at hens
        have h := Except.ok.inj hens
        have hst : stA = {st with
            storage := {st.storage with
              fragments :=
                fragUpdate st.storage.fragments {oldF with nextId := some k.nextFragmentKey.fragmentId}
                  ++ [nextFragment roomId k t.prev_batch]},
            comparer := st.comparer ++ [ComparerOp.append k.nextFragmentKey.fragmentId k.fragmentId]} :=
          (congrArg Prod.fst h).symm
        have hbl : bl = [] ++
            [TimelineEntry.fragmentBoundary false {oldF with nextId := some k.nextFragmentKey.fragmentId},
             TimelineEntry.fragmentBoundary true (nextFragment roomId k t.prev_batch)] :=
          (congrArg (fun x => x.2.1) h).symm
        rw [hst, hbl]
        exact ⟨rfl, rfl, rfl⟩
    · rw [ensureLiveFragment_notLimited roomId k [] t st (Bool.not_eq_true t.limited ▸ hlim)] at hens
      have h := Except.ok.inj hens
      have hst : stA = st := (congrArg Prod.fst h).symm
      have hbl : bl = [] := (congrArg (fun x => x.2.1) h).symm
      rw [hst, hbl]
      exact ⟨rfl, rfl, rfl⟩

theorem writeSync_writer_eq {μ ρ χ : Type} (w : SyncWriter) (ctx : Collaborators μ ρ χ)
    (resp : RoomResponse) (isRejoin : Bool) (st : SyncState μ ρ) (w2 : SyncWriter)
    (st2 : SyncState μ ρ) (res : SyncWriterResult χ)
    (hok : w.writeSync ctx resp isRejoin st = .ok (w2, st2, res)) : w2 = w := by
  unfold SyncWriter.writeSync at hok
  split at hok
  · exact absurd hok (by simp)
  · dsimp only at hok
    split at hok
    · exact absurd hok (by simp)
    · have h := Except.ok.inj hok
      exact (congrArg Prod.fst h).symm

theorem writeSync_run_characterize {μ ρ χ : Type} (w : SyncWriter)
    (ctx : Collaborators μ ρ χ) (resp : RoomResponse) (isRejoin : Bool)
    (st : SyncState μ ρ) (t : Timeline) (evs : List Event)
    (w2 : SyncWriter) (st2 : SyncState μ ρ) (res : SyncWriterResult χ)
    (htl : (if isRejoin then
        (handleRejoinOverlap w.roomId w.lastLiveKey st.storage resp.timeline).map some
      else .ok resp.timeline) = .ok (some t))
    (hevs : t.events = some evs) (hne : evs ≠ [])
    (hok : w.writeSync ctx resp isRejoin st = .ok (w2, st2, res)) :
    ∃ (stA : SyncState μ ρ) (bl : List TimelineEntry) (k0 : EventKey),
      ensureLiveFragment w.roomId w.lastLiveKey [] t
        (writeStateEvents ctx w.roomId resp [] ((some t).map Timeline.limited) st).1 =
        .ok (stA, bl, k0)
      ∧ res.entries = bl ++ (loopEntriesList ctx w.roomId (deduplicateEvents evs)
          (deduplicateEvents evs) k0 stA.memberState).map TimelineEntry.event
      ∧ st2.storage.fragments = stA.storage.fragments
      ∧ st2.comparer = stA.comparer := by
  cases hens : ensureLiveFragment w.roomId w.lastLiveKey [] t
      (writeStateEvents ctx w.roomId resp [] ((some t).map Timeline.limited) st).1 with
  | error err =>
    have hwt := writeTimeline_error ctx w.roomId t evs w.lastLiveKey
      (writeStateEvents ctx w.roomId resp [] ((some t).map Timeline.limited) st).2
      (writeStateEvents ctx w.roomId resp [] ((some t).map Timeline.limited) st).1
      err hevs hne hens
    have hws := writeSync_timelineError w ctx resp isRejoin st (some t) err htl hwt
    rw [hws] at hok
    exact absurd hok (by simp)
  | ok trip =>
    obtain ⟨stA, bl, k0⟩ := trip
    have hwt := writeTimeline_run ctx w.roomId t evs w.lastLiveKey
      (writeStateEvents ctx w.roomId resp [] ((some t).map Timeline.limited) st).2
      (writeStateEvents ctx w.roomId resp [] ((some t).map Timeline.limited) st).1
      stA bl k0 hevs hne hens
    have hws := writeSync_ok w ctx resp isRejoin st (some t) _ htl hwt
    rw [hws] at hok
    have h := Except.ok.inj hok
    have hst2 : st2 = (writeTimelineLoop ctx w.roomId (deduplicateEvents evs)
        (deduplicateEvents evs) ⟨stA, k0, bl, [],
          (writeStateEvents ctx w.roomId resp [] ((some t).map Timeline.limited) st).2⟩).state :=
      (congrArg (fun x => x.2.1) h).symm
    have hres : res = ⟨(writeTimelineLoop ctx w.roomId (deduplicateEvents evs)
        (deduplicateEvents evs) ⟨stA, k0, bl, [],
          (writeStateEvents ctx w.roomId resp [] ((some t).map Timeline.limited) st).2⟩).entries,
        _, _, _⟩ := (congrArg (fun x => x.2.2) h).symm
    refine ⟨stA, bl, k0, rfl, ?_, ?_, ?_⟩
    · rw [hres]
      exact writeTimelineLoop_entries ctx w.roomId (deduplicateEvents evs)
        (deduplicateEvents evs) ⟨stA, k0, bl, [],
          (writeStateEvents ctx w.roomId resp [] ((some t).map Timeline.limited) st).2⟩
    · rw [hst2]
      exact writeTimelineLoop_fragments ctx w.roomId (deduplicateEvents evs)
        (deduplicateEvents evs) _
    · rw [hst2]
      exact writeTimelineLoop_comparer ctx w.roomId (deduplicateEvents evs)
        (deduplicateEvents evs) _

/-- An empty transaction state over trivial collaborator states, used to
evaluate the writer on concrete inputs. -/
def emptyState : SyncState Unit Unit := ⟨⟨[], [], []⟩, [], (), ()⟩

/-- Claim C1: for every writeSync call whose (possibly rejoin-adjusted)
timeline has a non-empty deduplicated event list, the returned entries contain
the deduplicated events in exactly their input order, the EventKeys assigned
to them are strictly increasing under the EventKey total order, and when the
writer had no prior key (so, per the load contract, the store has no live
fragment for the room) exactly one fragment is created and all produced keys
share that fragment id. -/
theorem writeSync_ordering_and_first_fragment {μ ρ χ : Type} (w : SyncWriter)
    (ctx : Collaborators μ ρ χ) (resp : RoomResponse) (isRejoin : Bool)
    (st : SyncState μ ρ) (t : Timeline) (evs : List Event)
    (w2 : SyncWriter) (st2 : SyncState μ ρ) (res : SyncWriterResult χ)
    (htl : (if isRejoin then
        (handleRejoinOverlap w.roomId w.lastLiveKey st.storage resp.timeline).map some
      else .ok resp.timeline) = .ok (some t))
    (hevs : t.events = some evs) (hne : deduplicateEvents evs ≠ [])
    (hok : w.writeSync ctx resp isRejoin st = .ok (w2, st2, res)) :
    (eventEntriesOf res.entries).map StorageEntry.event = deduplicateEvents evs
    ∧ List.Pairwise EventKey.lt (keysOf (eventEntriesOf res.entries))
    ∧ (w.lastLiveKey = none → liveFragment st.storage.fragments w.roomId = none →
        ∃ frag : Fragment, st2.storage.fragments = st.storage.fragments ++ [frag]
          ∧ ∀ se ∈ eventEntriesOf res.entries, se.fragmentId = frag.id) := by
  have hne2 : evs ≠ [] := by
    intro hc
    rw [hc] at hne
    exact hne rfl
  obtain ⟨stA, bl, k0, hens, hentries, hfrags, hcomp⟩ :=
    writeSync_run_characterize w ctx resp isRejoin st t evs w2 st2 res htl hevs hne2 hok
  obtain ⟨hblempty, hmemA, hrelA⟩ := ensureLiveFragment_ok_shape _ _ _ _ _ _ _ hens
  have hevents : eventEntriesOf res.entries = loopEntriesList ctx w.roomId
      (deduplicateEvents evs) (deduplicateEvents evs) k0 stA.memberState := by
    rw [hentries, eventEntriesOf_append, hblempty, eventEntriesOf_map_event]
    exact List.nil_append _
  refine ⟨?_, ?_, ?_⟩
  · rw [hevents, loopEntriesList_map_event]
  · rw [hevents]
    exact loopEntriesList_pairwise ctx w.roomId (deduplicateEvents evs)
      (deduplicateEvents evs) k0 stA.memberState
  · intro hkey hlive
    rw [hkey] at hens
    have hwse : (writeStateEvents ctx w.roomId resp [] ((some t).map Timeline.limited)
        st).1.storage.fragments = st.storage.fragments :=
      writeStateEvents_fragments ctx w.roomId resp [] ((some t).map Timeline.limited) st
    have hlive2 : liveFragment (writeStateEvents ctx w.roomId resp []
        ((some t).map Timeline.limited) st).1.storage.fragments w.roomId = none := by
      rw [hwse]
      exact hlive
    rw [ensureLiveFragment_first w.roomId [] t _ hlive2] at hens
    simp only [Except.ok.injEq, Prod.mk.injEq] at hens
    obtain ⟨hstA, hbl2, hk0⟩ := hens
    refine ⟨firstFragment w.roomId t.prev_batch, ?_, ?_⟩
    · have hfragsA : stA.storage.fragments =
          (writeStateEvents ctx w.roomId resp [] ((some t).map Timeline.limited)
            st).1.storage.fragments ++ [firstFragment w.roomId t.prev_batch] := by
        rw [← hstA]
      rw [hfrags, hfragsA, hwse]
    · intro se hse
      rw [hevents] at hse
      have hfid := loopEntriesList_fragmentId ctx w.roomId (deduplicateEvents evs)
        (deduplicateEvents evs) k0 stA.memberState se hse
      have hk0f : k0.fragmentId = EventKey.defaultLiveKey.fragmentId := by
        rw [← hk0]
      rw [hfid, hk0f]
      rfl

/-- Witness for C1: a concrete initial sync of two events produces strictly
increasing keys. -/
theorem writeSync_ordering_and_first_fragment_witness :
    List.Pairwise EventKey.lt (keysOf (eventEntriesOf
      [TimelineEntry.fragmentBoundary true ⟨"r", 0, none, none, none, none⟩,
       TimelineEntry.event ⟨0, 2147483648, "r", ⟨"a", "m.text", "u", none, "c"⟩, none, none⟩,
       TimelineEntry.event ⟨0, 2147483649, "r", ⟨"b", "m.text", "u", none, "c"⟩, none, none⟩])) :=
  (writeSync_ordering_and_first_fragment ⟨"r", none⟩ trivialCollaborators
    ⟨some ⟨some [⟨"a", "m.text", "u", none, "c"⟩, ⟨"b", "m.text", "u", none, "c"⟩], false, none⟩,
      none⟩
    false emptyState
    ⟨some [⟨"a", "m.text", "u", none, "c"⟩, ⟨"b", "m.text", "u", none, "c"⟩], false, none⟩
    [⟨"a", "m.text", "u", none, "c"⟩, ⟨"b", "m.text", "u", none, "c"⟩]
    ⟨"r", none⟩
    ⟨⟨[⟨"r", 0, none, none, none, none⟩],
      [⟨0, 2147483648, "r", ⟨"a", "m.text", "u", none, "c"⟩, none, none⟩,
       ⟨0, 2147483649, "r", ⟨"b", "m.text", "u", none, "c"⟩, none, none⟩], []⟩,
      [ComparerOp.add ⟨"r", 0, none, none, none, none⟩], (), ()⟩
    ⟨[TimelineEntry.fragmentBoundary true ⟨"r", 0, none, none, none, none⟩,
      TimelineEntry.event ⟨0, 2147483648, "r", ⟨"a", "m.text", "u", none, "c"⟩, none, none⟩,
      TimelineEntry.event ⟨0, 2147483649, "r", ⟨"b", "m.text", "u", none, "c"⟩, none, none⟩],
      [], some ⟨0, 2147483649⟩, []⟩
    rfl rfl (by decide) rfl).2.1

/-- Claim C2: on a rejoin write where the last stored event of the
previously-known live fragment exists, if its id occurs in the new timeline
the replayed prefix up to and including it is dropped and limited is forced to
false (and a limited = false timeline never replaces the live fragment, so the
rejoin itself creates no fragment); if its id does not occur, limited is
forced to true. -/
theorem rejoin_overlap_behavior {μ ρ : Type} (roomId : String) (k : EventKey)
    (storage : Storage) (le : StorageEntry) (t : Timeline) (evs : List Event)
    (hk : lastEvent storage roomId k.fragmentId = some le)
    (hevs : t.events = some evs) :
    (∀ i, evs.findIdx? (fun e => decide (e.event_id = le.event.event_id)) = some i →
      handleRejoinOverlap roomId (some k) storage (some t) =
        .ok {t with limited := false, events := some (evs.drop (i + 1))})
    ∧ (evs.findIdx? (fun e => decide (e.event_id = le.event.event_id)) = none →
      handleRejoinOverlap roomId (some k) storage (some t) = .ok {t with limited := true})
    ∧ (∀ (st : SyncState μ ρ) (entries : List TimelineEntry) (k2 : EventKey) (i : Nat),
        ensureLiveFragment roomId (some k2) entries
          {t with limited := false, events := some (evs.drop (i + 1))} st =
          .ok (st, entries, k2)) := by
  refine ⟨?_, ?_, ?_⟩
  · intro i hidx
    exact handleRejoinOverlap_found roomId k storage le t evs i hk hevs hidx
  · intro hidx
    exact handleRejoinOverlap_notFound roomId k storage le t evs hk hevs hidx
  · intro st entries k2 i
    exact ensureLiveFragment_notLimited roomId k2 entries _ st rfl

/-- Witness for C2: a stored last event with id E is found in the new timeline
[E, X]; only X remains and limited is forced to false. -/
theorem rejoin_overlap_behavior_witness :
    handleRejoinOverlap "r" (some ⟨0, 5⟩)
      ⟨[], [⟨0, 5, "r", ⟨"E", "m.text", "u", none, "c"⟩, none, none⟩], []⟩
      (some ⟨some [⟨"E", "m.text", "u", none, "c"⟩, ⟨"X", "m.text", "u", none, "c"⟩],
        false, none⟩) =
      .ok ⟨some [⟨"X", "m.text", "u", none, "c"⟩], false, none⟩ :=
  (@rejoin_overlap_behavior Unit Unit "r" ⟨0, 5⟩
    ⟨[], [⟨0, 5, "r", ⟨"E", "m.text", "u", none, "c"⟩, none, none⟩], []⟩
    ⟨0, 5, "r", ⟨"E", "m.text", "u", none, "c"⟩, none, none⟩
    ⟨some [⟨"E", "m.text", "u", none, "c"⟩, ⟨"X", "m.text", "u", none, "c"⟩], false, none⟩
    [⟨"E", "m.text", "u", none, "c"⟩, ⟨"X", "m.text", "u", none, "c"⟩]
    rfl rfl).1 0 (by decide)

/-- Claim C10: a rejoin write with no lastLiveKey, or whose previously-known
live fragment has no stored events, skips the overlap search and forces
limited = true (a no-op when the server already reported limited), leaving the
event list unchanged. -/
theorem rejoin_skips_overlap_forces_limited (roomId : String)
    (lastLiveKey : Option EventKey) (storage : Storage) (t : Timeline)
    (h : lastLiveKey = none ∨
      ∃ k, lastLiveKey = some k ∧ lastEvent storage roomId k.fragmentId = none) :
    handleRejoinOverlap roomId lastLiveKey storage (some t) =
      .ok {t with limited := true} := by
  rcases h with h | ⟨k, hk, hle⟩
  · rw [h]
    exact handleRejoinOverlap_noKey roomId storage t
  · rw [hk]
    exact handleRejoinOverlap_noLastEvent roomId k storage t hle

/-- Witness for C10: with no last live key, a limited = false timeline is
forced to limited = true with its events kept. -/
theorem rejoin_skips_overlap_forces_limited_witness :
    handleRejoinOverlap "r" none ⟨[], [], []⟩
      (some ⟨some [⟨"a", "m.text", "u", none, "c"⟩], false, none⟩) =
      .ok ⟨some [⟨"a", "m.text", "u", none, "c"⟩], true, none⟩ :=
  rejoin_skips_overlap_forces_limited "r" none ⟨[], [], []⟩
    ⟨some [⟨"a", "m.text", "u", none, "c"⟩], false, none⟩ (Or.inl rfl)

/-- Claim C5: deduplication keeps exactly one event per unique event id, the
first occurrence, preserving first-seen order (distinct kept ids, a sublist of
the input, every kept event is the first occurrence of its id, every input id
is represented), and the timeline loop stores exactly the deduplicated
events, one entry per unique id. -/
theorem deduplication_first_occurrence (evs : List Event) :
    ((deduplicateEvents evs).map Event.event_id).Nodup
    ∧ List.Sublist (deduplicateEvents evs) evs
    ∧ (∀ e ∈ deduplicateEvents evs,
        evs.find? (fun x => decide (x.event_id = e.event_id)) = some e)
    ∧ (∀ e ∈ evs, ∃ e2 ∈ deduplicateEvents evs, e2.event_id = e.event_id)
    ∧ (∀ (μ ρ χ : Type) (ctx : Collaborators μ ρ χ) (roomId : String)
        (allEvents : List Event) (key : EventKey) (s : μ),
        (loopEntriesList ctx roomId allEvents (deduplicateEvents evs) key s).map
          StorageEntry.event = deduplicateEvents evs) := by
  refine ⟨dedupAux_nodup_ids evs [], dedupAux_sublist evs [],
    dedupAux_first_occurrence evs [], ?_, ?_⟩
  · intro e he
    rcases dedupAux_covers evs [] e he with hc | h2
    · simp at hc
    · exact h2
  · intro μ ρ χ ctx roomId allEvents key s
    exact loopEntriesList_map_event ctx roomId allEvents (deduplicateEvents evs) key s

/-- Witness for C5: in a batch repeating id a, the kept event for id a is the
first occurrence. -/
theorem deduplication_first_occurrence_witness :
    List.find? (fun x : Event => decide (x.event_id = "a"))
      ([⟨"a", "m.text", "u", none, "c"⟩, ⟨"b", "m.text", "u", none, "c"⟩,
        ⟨"a", "m.text", "u", none, "c2"⟩] : List Event) =
      some ⟨"a", "m.text", "u", none, "c"⟩ :=
  (deduplication_first_occurrence
    [⟨"a", "m.text", "u", none, "c"⟩, ⟨"b", "m.text", "u", none, "c"⟩,
     ⟨"a", "m.text", "u", none, "c2"⟩]).2.2.1
    ⟨"a", "m.text", "u", none, "c"⟩ (by decide)

/-- Claim C8: a writeSync call returns the writer with its in-memory
lastLiveKey unchanged (the method never assigns the field), and afterSync sets
lastLiveKey to exactly its argument. -/
theorem writeSync_preserves_lastLiveKey {μ ρ χ : Type} (w : SyncWriter)
    (ctx : Collaborators μ ρ χ) (resp : RoomResponse) (isRejoin : Bool)
    (st : SyncState μ ρ) (w2 : SyncWriter) (st2 : SyncState μ ρ)
    (res : SyncWriterResult χ) (k : Option EventKey)
    (hok : w.writeSync ctx resp isRejoin st = .ok (w2, st2, res)) :
    w2.lastLiveKey = w.lastLiveKey ∧ (w.afterSync k).lastLiveKey = k := by
  constructor
  · rw [writeSync_writer_eq w ctx resp isRejoin st w2 st2 res hok]
  · rfl

/-- Witness for C8 on an empty sync response. -/
theorem writeSync_preserves_lastLiveKey_witness :
    (⟨"r", none⟩ : SyncWriter).lastLiveKey = (⟨"r", none⟩ : SyncWriter).lastLiveKey ∧
      (SyncWriter.afterSync ⟨"r", none⟩ (some ⟨0, 7⟩)).lastLiveKey = some ⟨0, 7⟩ :=
  writeSync_preserves_lastLiveKey ⟨"r", none⟩ trivialCollaborators ⟨none, none⟩ false
    emptyState ⟨"r", none⟩ emptyState ⟨[], [], none, []⟩ (some ⟨0, 7⟩) rfl

theorem fragGet_append_of_some (l1 l2 : List Fragment) (roomId : String) (i : Int)
    (f : Fragment) (h : fragGet l1 roomId i = some f) :
    fragGet (l1 ++ l2) roomId i = some f := by
  unfold fragGet at h ⊢
  rw [List.find?_append, h]
  rfl

/-- Claim C3: a limited timeline with an existing key replaces the live
fragment: the old fragment F is updated with F.nextId = the id of the new
fragment, the new fragment (previousId = F.id, nextId = null, previousToken =
the prev-batch token, per the definition of nextFragment) is added, the
adjacency is registered with the ordering comparer, and the returned entries
start with the end boundary of F immediately followed by the start boundary
of the new fragment, before any event entries. -/
theorem limited_sync_replaces_live_fragment {μ ρ χ : Type} (ctx : Collaborators μ ρ χ)
    (roomId : String) (t : Timeline) (evs : List Event) (k : EventKey) (oldF : Fragment)
    (memberChanges : List (String × χ)) (st : SyncState μ ρ)
    (hlim : t.limited = true) (hevs : t.events = some evs) (hne : evs ≠ [])
    (hfrag : fragGet st.storage.fragments roomId k.fragmentId = some oldF) :
    ∃ out : WTOut μ ρ χ,
      writeTimeline ctx roomId (some t) (some k) memberChanges st = .ok out
      ∧ out.state.storage.fragments =
          fragUpdate st.storage.fragments {oldF with nextId := some k.nextFragmentKey.fragmentId}
            ++ [nextFragment roomId k t.prev_batch]
      ∧ fragGet out.state.storage.fragments roomId k.fragmentId =
          some {oldF with nextId := some k.nextFragmentKey.fragmentId}
      ∧ out.state.comparer =
          st.comparer ++ [ComparerOp.append k.nextFragmentKey.fragmentId k.fragmentId]
      ∧ out.entries.take 2 =
          [TimelineEntry.fragmentBoundary false
             {oldF with nextId := some k.nextFragmentKey.fragmentId},
           TimelineEntry.fragmentBoundary true (nextFragment roomId k t.prev_batch)]
      ∧ (∀ x ∈ out.entries.drop 2, ∃ se, x = TimelineEntry.event se) := by
  have hens := ensureLiveFragment_limited roomId k [] t st oldF hlim hfrag
  have hwt := writeTimeline_run ctx roomId t evs (some k) memberChanges st _ _ _ hevs hne hens
  refine ⟨_, hwt, ?_, ?_, ?_, ?_, ?_⟩
  · simp only [writeTimelineLoop_fragments]
  · simp only [writeTimelineLoop_fragments]
    obtain ⟨hmem2, hroom2, hid2⟩ := fragGet_mem_props _ _ _ _ hfrag
    exact fragGet_append_of_some _ _ roomId k.fragmentId _
      (fragGet_fragUpdate_self st.storage.fragments roomId k.fragmentId oldF
        {oldF with nextId := some k.nextFragmentKey.fragmentId} hfrag rfl rfl)
  · simp only [writeTimelineLoop_comparer]
  · simp only [writeTimelineLoop_entries]
    rfl
  · simp only [writeTimelineLoop_entries]
    intro x hx
    simp only [List.nil_append, List.cons_append, List.drop_succ_cons, List.drop_zero] at hx
    rcases List.mem_map.mp hx with ⟨se, hse, hxe⟩
    exact ⟨se, hxe.symm⟩

/-- Witness for C3: a limited one-event sync on a store holding the live
fragment with id 0 and key (0, 5). -/
theorem limited_sync_replaces_live_fragment_witness :
    ∃ out : WTOut Unit Unit Unit,
      writeTimeline trivialCollaborators "r"
        (some ⟨some [⟨"a", "m.text", "u", none, "c"⟩], true, some "tok"⟩) (some ⟨0, 5⟩) []
        ⟨⟨[⟨"r", 0, none, none, none, none⟩], [], []⟩, [], (), ()⟩ = .ok out
      ∧ out.state.storage.fragments =
          fragUpdate [⟨"r", 0, none, none, none, none⟩]
            {(⟨"r", 0, none, none, none, none⟩ : Fragment) with nextId := some 1}
            ++ [nextFragment "r" ⟨0, 5⟩ (some "tok")]
      ∧ fragGet out.state.storage.fragments "r" 0 =
          some {(⟨"r", 0, none, none, none, none⟩ : Fragment) with nextId := some 1}
      ∧ out.state.comparer = [] ++ [ComparerOp.append 1 0]
      ∧ out.entries.take 2 =
          [TimelineEntry.fragmentBoundary false
             {(⟨"r", 0, none, none, none, none⟩ : Fragment) with nextId := some 1},
           TimelineEntry.fragmentBoundary true (nextFragment "r" ⟨0, 5⟩ (some "tok"))]
      ∧ (∀ x ∈ out.entries.drop 2, ∃ se, x = TimelineEntry.event se) :=
  limited_sync_replaces_live_fragment trivialCollaborators "r"
    ⟨some [⟨"a", "m.text", "u", none, "c"⟩], true, some "tok"⟩
    [⟨"a", "m.text", "u", none, "c"⟩] ⟨0, 5⟩ ⟨"r", 0, none, none, none, none⟩ []
    ⟨⟨[⟨"r", 0, none, none, none, none⟩], [], []⟩, [], (), ()⟩
    rfl rfl (by decide) rfl

/-- Claim C7: a limited write that must replace the live fragment aborts with
an error when the fragment store reports the old live fragment absent; the
Except.error result carries no entries and no state, modelling the aborted
transaction, and the error is surfaced to the writeSync caller. -/
theorem missing_live_fragment_aborts {μ ρ χ : Type} (w : SyncWriter)
    (ctx : Collaborators μ ρ χ) (resp : RoomResponse) (st : SyncState μ ρ)
    (t : Timeline) (evs : List Event) (k : EventKey)
    (htl : resp.timeline = some t)
    (hlim : t.limited = true) (hevs : t.events = some evs) (hne : evs ≠ [])
    (hkey : w.lastLiveKey = some k)
    (hfrag : fragGet st.storage.fragments w.roomId k.fragmentId = none) :
    w.writeSync ctx resp false st = .error (.oldFragmentMissing k.fragmentId) := by
  have hwse : (writeStateEvents ctx w.roomId resp [] ((some t).map Timeline.limited)
      st).1.storage.fragments = st.storage.fragments :=
    writeStateEvents_fragments ctx w.roomId resp [] ((some t).map Timeline.limited) st
  have hfrag2 : fragGet (writeStateEvents ctx w.roomId resp []
      ((some t).map Timeline.limited) st).1.storage.fragments w.roomId k.fragmentId = none := by
    rw [hwse]
    exact hfrag
  have hens := ensureLiveFragment_limitedMissing w.roomId k []
    t (writeStateEvents ctx w.roomId resp [] ((some t).map Timeline.limited) st).1 hlim hfrag2
  have hwt := writeTimeline_error ctx w.roomId t evs (some k)
    (writeStateEvents ctx w.roomId resp [] ((some t).map Timeline.limited) st).2
    (writeStateEvents ctx w.roomId resp [] ((some t).map Timeline.limited) st).1
    (.oldFragmentMissing k.fragmentId) hevs hne hens
  have hwt2 : writeTimeline ctx w.roomId (some t) w.lastLiveKey
      (writeStateEvents ctx w.roomId resp [] ((some t).map Timeline.limited) st).2
      (writeStateEvents ctx w.roomId resp [] ((some t).map Timeline.limited) st).1 =
      .error (.oldFragmentMissing k.fragmentId) := by
    rw [hkey]
    exact hwt
  exact writeSync_timelineError w ctx resp false st (some t)
    (.oldFragmentMissing k.fragmentId) (by simp [htl]) hwt2

/-- Witness for C7: with key (0, 5) and an empty fragment store, a limited
sync aborts with the missing-fragment error. -/
theorem missing_live_fragment_aborts_witness :
    SyncWriter.writeSync ⟨"r", some ⟨0, 5⟩⟩ trivialCollaborators
      ⟨some ⟨some [⟨"a", "m.text", "u", none, "c"⟩], true, none⟩, none⟩ false emptyState =
      .error (.oldFragmentMissing 0) :=
  missing_live_fragment_aborts ⟨"r", some ⟨0, 5⟩⟩ trivialCollaborators
    ⟨some ⟨some [⟨"a", "m.text", "u", none, "c"⟩], true, none⟩, none⟩ emptyState
    ⟨some [⟨"a", "m.text", "u", none, "c"⟩], true, none⟩
    [⟨"a", "m.text", "u", none, "c"⟩] ⟨0, 5⟩ rfl rfl rfl (by decide) rfl rfl

theorem mkStorageEntry_profile {μ ρ χ : Type} (ctx : Collaborators μ ρ χ) (roomId : String)
    (allEvents : List Event) (key : EventKey) (s : μ) (e : Event) :
    ((mkStorageEntry ctx roomId allEvents key s e).displayName,
     (mkStorageEntry ctx roomId allEvents key s e).avatarUrl) =
      (match ctx.lookupMember s e.sender e allEvents with
       | some m => (m.displayName, m.avatarUrl)
       | none => (none, none)) := by
  unfold mkStorageEntry createEventEntry
  cases hm : ctx.lookupMember s e.sender e allEvents <;> simp [hm]

theorem writeTimeline_ok_characterize {μ ρ χ : Type} (ctx : Collaborators μ ρ χ)
    (roomId : String) (t : Timeline) (evs : List Event) (key0 : Option EventKey)
    (memberChanges : List (String × χ)) (st : SyncState μ ρ) (out : WTOut μ ρ χ)
    (hevs : t.events = some evs) (hne : evs ≠ [])
    (hok : writeTimeline ctx roomId (some t) key0 memberChanges st = .ok out) :
    ∃ stA bl k0, ensureLiveFragment roomId key0 [] t st = .ok (stA, bl, k0)
      ∧ out.entries = bl ++ (loopEntriesList ctx roomId (deduplicateEvents evs)
          (deduplicateEvents evs) k0 stA.memberState).map TimelineEntry.event := by
  cases hens : ensureLiveFragment roomId key0 [] t st with
  | error err =>
    rw [writeTimeline_error ctx roomId t evs key0 memberChanges st err hevs hne hens] at hok
    exact absurd hok (by simp)
  | ok trip =>
    obtain ⟨stA, bl, k0⟩ := trip
    rw [writeTimeline_run ctx roomId t evs key0 memberChanges st stA bl k0 hevs hne hens] at hok
    have h := Except.ok.inj hok
    refine ⟨stA, bl, k0, rfl, ?_⟩
    have hent : (writeTimelineLoop ctx roomId (deduplicateEvents evs) (deduplicateEvents evs)
        ⟨stA, k0, bl, [], memberChanges⟩).entries = out.entries := congrArg WTOut.entries h
    rw [← hent, writeTimelineLoop_entries]

/-- Claim C6: the profile snapshot stored on the entry at position i of one
written batch is looked up in the member-writer state into which only the
timeline member events at positions strictly before i have been written; the
member write for the event at position i itself (and at any later position)
runs only after that entry was built and inserted, so a rename takes effect
starting with the next event and never retroactively changes the
displayName/avatarUrl of entries at positions up to and including i. -/
theorem member_event_not_retroactive {μ ρ χ : Type} (ctx : Collaborators μ ρ χ)
    (roomId : String) (t : Timeline) (evs : List Event) (key0 : Option EventKey)
    (memberChanges : List (String × χ)) (st : SyncState μ ρ) (out : WTOut μ ρ χ)
    (hevs : t.events = some evs)
    (hok : writeTimeline ctx roomId (some t) key0 memberChanges st = .ok out)
    (i : Nat) (se : StorageEntry) (hse : (eventEntriesOf out.entries)[i]? = some se) :
    ∃ e, (deduplicateEvents evs)[i]? = some e ∧
      (se.displayName, se.avatarUrl) =
        (match ctx.lookupMember
            (memberFold ctx st.memberState ((deduplicateEvents evs).take i)) e.sender e
            (deduplicateEvents evs) with
         | some m => (m.displayName, m.avatarUrl)
         | none => (none, none)) := by
  by_cases hne0 : evs = []
  · rw [hne0] at hevs
    rw [writeTimeline_emptyEvents ctx roomId t key0 memberChanges st hevs] at hok
    have h := Except.ok.inj hok
    have hent : ([] : List TimelineEntry) = out.entries := congrArg WTOut.entries h
    rw [← hent] at hse
    simp [eventEntriesOf] at hse
  · have hne : evs ≠ [] := hne0
    obtain ⟨stA, bl, k0, hens, hentries⟩ :=
      writeTimeline_ok_characterize ctx roomId t evs key0 memberChanges st out hevs hne hok
    obtain ⟨hblempty, hmemA, hrelA⟩ := ensureLiveFragment_ok_shape _ _ _ _ _ _ _ hens
    have hevents : eventEntriesOf out.entries = loopEntriesList ctx roomId
        (deduplicateEvents evs) (deduplicateEvents evs) k0 stA.memberState := by
      rw [hentries, eventEntriesOf_append, hblempty, eventEntriesOf_map_event]
      exact List.nil_append _
    rw [hevents, loopEntriesList_getElem?] at hse
    cases hdd : (deduplicateEvents evs)[i]? with
    | none =>
      rw [hdd] at hse
      simp at hse
    | some e =>
      rw [hdd] at hse
      simp only [Option.map_some'] at hse
      have hse2 := Option.some.inj hse
      refine ⟨e, rfl, ?_⟩
      rw [← hse2, mkStorageEntry_profile, hmemA]

/-- Witness for C6 on a one-event batch with the trivial member writer. -/
theorem member_event_not_retroactive_witness :
    ∃ e, (deduplicateEvents [⟨"a", "m.text", "u", none, "c"⟩])[0]? = some e ∧
      ((none : Option String), (none : Option String)) =
        (match trivialCollaborators.lookupMember
            (memberFold trivialCollaborators emptyState.memberState
              ((deduplicateEvents [⟨"a", "m.text", "u", none, "c"⟩]).take 0)) e.sender e
            (deduplicateEvents [⟨"a", "m.text", "u", none, "c"⟩]) with
         | some m => (m.displayName, m.avatarUrl)
         | none => (none, none)) :=
  member_event_not_retroactive trivialCollaborators "r"
    ⟨some [⟨"a", "m.text", "u", none, "c"⟩], false, none⟩
    [⟨"a", "m.text", "u", none, "c"⟩] (some ⟨0, 5⟩) [] emptyState
    ⟨⟨⟨[], [⟨0, 6, "r", ⟨"a", "m.text", "u", none, "c"⟩, none, none⟩], []⟩, [], (), ()⟩,
      some ⟨0, 6⟩,
      [TimelineEntry.event ⟨0, 6, "r", ⟨"a", "m.text", "u", none, "c"⟩, none, none⟩], [], []⟩
    rfl rfl 0 ⟨0, 6, "r", ⟨"a", "m.text", "u", none, "c"⟩, none, none⟩ rfl

/-- Counterexample to C4 as stated: with isRejoin = true and a missing
timeline section, writeSync raises a TypeError (the source dereferences
timeline.limited without a guard) instead of treating the input as nothing to
write. -/
theorem writeSync_missing_timeline_rejoin_errors :
    SyncWriter.writeSync ⟨"r", none⟩ trivialCollaborators ⟨none, none⟩ true emptyState =
      .error .typeError := rfl

/-- Claim C4 (amended): with isRejoin = false, a missing timeline section, a
missing events array, or an empty events list is treated as nothing to write
and never raises an error: the call succeeds, no entries are produced, no
fragment is created, and newLiveKey equals the writer current last live key
(the state section remains independently absent-safe; with isRejoin = true a
missing timeline section instead raises an error). -/
theorem writeSync_absent_sections_safe_without_rejoin {μ ρ χ : Type} (w : SyncWriter)
    (ctx : Collaborators μ ρ χ) (resp : RoomResponse) (st : SyncState μ ρ)
    (h : resp.timeline = none ∨
      ∃ t, resp.timeline = some t ∧ (t.events = none ∨ t.events = some [])) :
    ∃ st2 res, w.writeSync ctx resp false st = .ok (w, st2, res)
      ∧ res.entries = []
      ∧ st2.storage.fragments = st.storage.fragments
      ∧ res.newLiveKey = w.lastLiveKey := by
  rcases h with h0 | ⟨t, h0, he⟩
  · refine ⟨_, _, writeSync_ok w ctx resp false st none _ (by simp [h0])
      (writeTimeline_noTimeline ctx w.roomId w.lastLiveKey
        (writeStateEvents ctx w.roomId resp [] (Option.map Timeline.limited none) st).2
        (writeStateEvents ctx w.roomId resp [] (Option.map Timeline.limited none) st).1),
      rfl, ?_, rfl⟩
    exact writeStateEvents_fragments ctx w.roomId resp [] (Option.map Timeline.limited none) st
  · rcases he with he | he
    · refine ⟨_, _, writeSync_ok w ctx resp false st (some t) _ (by simp [h0])
        (writeTimeline_noEvents ctx w.roomId t w.lastLiveKey
          (writeStateEvents ctx w.roomId resp [] (Option.map Timeline.limited (some t)) st).2
          (writeStateEvents ctx w.roomId resp [] (Option.map Timeline.limited (some t)) st).1
          he),
        rfl, ?_, rfl⟩
      exact writeStateEvents_fragments ctx w.roomId resp []
        (Option.map Timeline.limited (some t)) st
    · refine ⟨_, _, writeSync_ok w ctx resp false st (some t) _ (by simp [h0])
        (writeTimeline_emptyEvents ctx w.roomId t w.lastLiveKey
          (writeStateEvents ctx w.roomId resp [] (Option.map Timeline.limited (some t)) st).2
          (writeStateEvents ctx w.roomId resp [] (Option.map Timeline.limited (some t)) st).1
          he),
        rfl, ?_, rfl⟩
      exact writeStateEvents_fragments ctx w.roomId resp []
        (Option.map Timeline.limited (some t)) st

/-- Witness for the amended C4 on a response with no timeline section. -/
theorem writeSync_absent_sections_safe_without_rejoin_witness :
    ∃ st2 res,
      SyncWriter.writeSync ⟨"r", none⟩ trivialCollaborators ⟨none, none⟩ false emptyState =
        .ok (⟨"r", none⟩, st2, res)
      ∧ res.entries = []
      ∧ st2.storage.fragments = emptyState.storage.fragments
      ∧ res.newLiveKey = (⟨"r", none⟩ : SyncWriter).lastLiveKey :=
  writeSync_absent_sections_safe_without_rejoin ⟨"r", none⟩ trivialCollaborators
    ⟨none, none⟩ emptyState (Or.inl rfl)

theorem liveCount_append (l1 l2 : List Fragment) (roomId : String) :
    liveCount (l1 ++ l2) roomId = liveCount l1 roomId + liveCount l2 roomId := by
  unfold liveCount
  rw [List.filter_append, List.length_append]

theorem liveCount_firstFragment (roomId : String) (tok : Option String) :
    liveCount [firstFragment roomId tok] roomId = 1 := by
  unfold liveCount firstFragment
  simp

theorem liveCount_nextFragment (roomId : String) (k : EventKey) (tok : Option String) :
    liveCount [nextFragment roomId k tok] roomId = 1 := by
  unfold liveCount nextFragment
  simp

theorem liveCount_fragUpdate_zero (l : List Fragment) (roomId : String) (k : EventKey)
    (oldF : Fragment) (hroom : oldF.roomId = roomId) (hid : oldF.id = k.fragmentId)
    (h2 : ∀ g ∈ l, g.roomId = roomId → g.nextId = none → g.id = k.fragmentId) :
    liveCount (fragUpdate l {oldF with nextId := some k.nextFragmentKey.fragmentId})
      roomId = 0 := by
  unfold liveCount fragUpdate
  rw [List.length_eq_zero, List.filter_eq_nil_iff]
  intro x hx
  simp only [decide_eq_true_eq]
  rcases List.mem_map.mp hx with ⟨g, hg, hgx⟩
  intro hlive2
  by_cases hcond : g.roomId = oldF.roomId ∧ g.id = oldF.id
  · rw [if_pos hcond] at hgx
    rw [← hgx] at hlive2
    exact Option.noConfusion hlive2.2
  · rw [if_neg hcond] at hgx
    rw [← hgx] at hlive2
    apply hcond
    constructor
    · rw [hlive2.1, hroom]
    · rw [h2 g hg hlive2.1 hlive2.2, hid]

theorem writeSync_ok_fragments_shape {μ ρ χ : Type} (w : SyncWriter)
    (ctx : Collaborators μ ρ χ) (resp : RoomResponse) (isRejoin : Bool)
    (st0 : SyncState μ ρ) (w2 : SyncWriter) (st2 : SyncState μ ρ) (res : SyncWriterResult χ)
    (hok : w.writeSync ctx resp isRejoin st0 = .ok (w2, st2, res)) :
    st2.storage.fragments = st0.storage.fragments
    ∨ (w.lastLiveKey = none ∧ liveFragment st0.storage.fragments w.roomId = none ∧
        ∃ tl : Timeline, st2.storage.fragments =
          st0.storage.fragments ++ [firstFragment w.roomId tl.prev_batch])
    ∨ (∃ (k : EventKey) (oldF : Fragment) (tl : Timeline), w.lastLiveKey = some k ∧
        fragGet st0.storage.fragments w.roomId k.fragmentId = some oldF ∧
        st2.storage.fragments =
          fragUpdate st0.storage.fragments
            {oldF with nextId := some k.nextFragmentKey.fragmentId}
            ++ [nextFragment w.roomId k tl.prev_batch]) := by
  cases htl0 : (if isRejoin then
      (handleRejoinOverlap w.roomId w.lastLiveKey st0.storage resp.timeline).map some
    else .ok resp.timeline) with
  | error err =>
    have hws : w.writeSync ctx resp isRejoin st0 = .error err := by
      unfold SyncWriter.writeSync
      rw [htl0]
    rw [hws] at hok
    exact absurd hok (by simp)
  | ok timeline =>
    cases hwt0 : writeTimeline ctx w.roomId timeline w.lastLiveKey
        (writeStateEvents ctx w.roomId resp [] (timeline.map Timeline.limited) st0).2
        (writeStateEvents ctx w.roomId resp [] (timeline.map Timeline.limited) st0).1 with
    | error err =>
      have hws := writeSync_timelineError w ctx resp isRejoin st0 timeline err htl0 hwt0
      rw [hws] at hok
      exact absurd hok (by simp)
    | ok out =>
      have hws := writeSync_ok w ctx resp isRejoin st0 timeline out htl0 hwt0
      rw [hws] at hok
      have h := Except.ok.inj hok
      have hst2 : out.state = st2 := congrArg (fun x => x.2.1) h
      have hwse : (writeStateEvents ctx w.roomId resp []
          (timeline.map Timeline.limited) st0).1.storage.fragments =
          st0.storage.fragments :=
        writeStateEvents_fragments ctx w.roomId resp [] (timeline.map Timeline.limited) st0
      cases timeline with
      | none =>
        rw [writeTimeline_noTimeline] at hwt0
        have hout := Except.ok.inj hwt0
        left
        rw [← hst2, ← hout]
        exact hwse
      | some t =>
        cases hte : t.events with
        | none =>
          rw [writeTimeline_noEvents ctx w.roomId t w.lastLiveKey _ _ hte] at hwt0
          have hout := Except.ok.inj hwt0
          left
          rw [← hst2, ← hout]
          exact hwse
        | some evs =>
          cases evs with
          | nil =>
            rw [writeTimeline_emptyEvents ctx w.roomId t w.lastLiveKey _ _ hte] at hwt0
            have hout := Except.ok.inj hwt0
            left
            rw [← hst2, ← hout]
            exact hwse
          | cons e0 rest =>
            have hne : (e0 :: rest) ≠ [] := List.cons_ne_nil e0 rest
            cases hkey : w.lastLiveKey with
            | none =>
              rw [hkey] at hwt0
              cases hlive0 : liveFragment (writeStateEvents ctx w.roomId resp []
                  ((some t).map Timeline.limited) st0).1.storage.fragments w.roomId with
              | some f0 =>
                rw [writeTimeline_run ctx w.roomId t (e0 :: rest) none _ _ _ _ _ hte hne
                  (ensureLiveFragment_existingLive w.roomId [] t _ f0 hlive0)] at hwt0
                have hout := Except.ok.inj hwt0
                left
                rw [← hst2, ← hout]
                simp only [writeTimelineLoop_fragments]
                exact hwse
              | none =>
                rw [writeTimeline_run ctx w.roomId t (e0 :: rest) none _ _ _ _ _ hte hne
                  (ensureLiveFragment_first w.roomId [] t _ hlive0)] at hwt0
                have hout := Except.ok.inj hwt0
                right
                left
                refine ⟨rfl, by rw [hwse] at hlive0; exact hlive0, t, ?_⟩
                rw [← hst2, ← hout]
                simp only [writeTimelineLoop_fragments]
                rw [← hwse]
            | some k =>
              rw [hkey] at hwt0
              by_cases hlim : t.limited
              · cases hfrag0 : fragGet (writeStateEvents ctx w.roomId resp []
                    ((some t).map Timeline.limited) st0).1.storage.fragments w.roomId
                    k.fragmentId with
                | none =>
                  rw [writeTimeline_error ctx w.roomId t (e0 :: rest) (some k) _ _ _ hte hne
                    (ensureLiveFragment_limitedMissing w.roomId k [] t _ hlim hfrag0)] at hwt0
                  exact absurd hwt0 (by simp)
                | some oldF =>
                  rw [writeTimeline_run ctx w.roomId t (e0 :: rest) (some k) _ _ _ _ _ hte hne
                    (ensureLiveFragment_limited w.roomId k [] t _ oldF hlim hfrag0)] at hwt0
                  have hout := Except.ok.inj hwt0
                  right
                  right
                  refine ⟨k, oldF, t, rfl, by rw [hwse] at hfrag0; exact hfrag0, ?_⟩
                  rw [← hst2, ← hout]
                  simp only [writeTimelineLoop_fragments]
                  rw [← hwse]
              · have hlim2 : t.limited = false := Bool.not_eq_true t.limited ▸ hlim
                rw [writeTimeline_run ctx w.roomId t (e0 :: rest) (some k) _ _ _ _ _ hte hne
                  (ensureLiveFragment_notLimited w.roomId k [] t _ hlim2)] at hwt0
                have hout := Except.ok.inj hwt0
                left
                rw [← hst2, ← hout]
                simp only [writeTimelineLoop_fragments]
                exact hwse

/-- Claim C9: when _createLiveFragment runs with no current key but the store
already holds a live fragment for the room, that fragment is returned and the
state is unchanged (nothing added, nothing registered); consequently every
successful writeSync call preserves the invariant that at most one fragment
per room has nextId = null, under the accompanying writer invariant that the
writer key, when present, is the only id a live fragment of the room may
carry (which load establishes). -/
theorem live_fragment_unique_preserved {μ ρ χ : Type}
    (roomId : String) (tok : Option String) (stc : SyncState μ ρ) (f : Fragment)
    (w : SyncWriter) (ctx : Collaborators μ ρ χ) (resp : RoomResponse) (isRejoin : Bool)
    (st0 : SyncState μ ρ) (w2 : SyncWriter) (st2 : SyncState μ ρ) (res : SyncWriterResult χ)
    (hlivec : liveFragment stc.storage.fragments roomId = some f)
    (h1 : liveCount st0.storage.fragments w.roomId ≤ 1)
    (h2 : ∀ k, w.lastLiveKey = some k → ∀ g ∈ st0.storage.fragments,
        g.roomId = w.roomId → g.nextId = none → g.id = k.fragmentId)
    (hok : w.writeSync ctx resp isRejoin st0 = .ok (w2, st2, res)) :
    createLiveFragment roomId tok stc = (stc, f)
    ∧ liveCount st2.storage.fragments w.roomId ≤ 1 := by
  constructor
  · unfold createLiveFragment
    rw [hlivec]
  · rcases writeSync_ok_fragments_shape w ctx resp isRejoin st0 w2 st2 res hok with
      hsh | ⟨hkey, hlive0, tl, hsh⟩ | ⟨k, oldF, tl, hkey, hfrag0, hsh⟩
    · rw [hsh]
      exact h1
    · rw [hsh, liveCount_append, liveFragment_none_liveCount _ _ hlive0,
        liveCount_firstFragment]
    · rw [hsh, liveCount_append, liveCount_nextFragment]
      obtain ⟨hmemF, hroomF, hidF⟩ := fragGet_mem_props _ _ _ _ hfrag0
      rw [liveCount_fragUpdate_zero st0.storage.fragments w.roomId k oldF hroomF hidF
        (h2 k hkey)]

/-- Witness for C9: a store with one live fragment; createLiveFragment
returns it unchanged, and an empty writeSync keeps at most one live
fragment. -/
theorem live_fragment_unique_preserved_witness :
    createLiveFragment "r" none
      (⟨⟨[⟨"r", 0, none, none, none, none⟩], [], []⟩, [], (), ()⟩ : SyncState Unit Unit) =
      (⟨⟨[⟨"r", 0, none, none, none, none⟩], [], []⟩, [], (), ()⟩,
        ⟨"r", 0, none, none, none, none⟩)
    ∧ liveCount [⟨"r", 0, none, none, none, none⟩] "r" ≤ 1 :=
  live_fragment_unique_preserved "r" none
    ⟨⟨[⟨"r", 0, none, none, none, none⟩], [], []⟩, [], (), ()⟩
    ⟨"r", 0, none, none, none, none⟩
    ⟨"r", none⟩ trivialCollaborators ⟨none, none⟩ false
    ⟨⟨[⟨"r", 0, none, none, none, none⟩], [], []⟩, [], (), ()⟩
    ⟨"r", none⟩ ⟨⟨[⟨"r", 0, none, none, none, none⟩], [], []⟩, [], (), ()⟩ ⟨[], [], none, []⟩
    rfl (by decide) (fun k hk => nomatch hk) rfl
